import Mathlib

/-!
Verification of the approval-workflow engine of the Constructor ERP server.

The JavaScript source is shallowly embedded: the Prisma-backed store becomes an
explicit `DB` record of rows, each service function becomes a pure Lean
function, and a throwing service call becomes `Except AppError`.  A database
transaction is modelled as the single pure state update returned on success;
an `Except.error` result returns no state, which models the all-or-nothing
transaction semantics (nothing is committed on failure).

Statuses and role codes are kept as the literal strings of the source.
Timestamps are integers (milliseconds since the epoch, as `Date.getTime()`),
and ids are strings.  `deleted_at` is modelled as the boolean `deleted`
(`deleted = false` iff `deleted_at` is null).
-/

namespace Erp

-- ─── List helpers (insertion sort by an integer key, keep-first dedup) ────────

/-- Insert `a` into `l` in front of the first element with a key not below
`key a`.  Models the ascending `orderBy` of the store queries. -/
def insertSorted (key : α → Int) (a : α) : List α → List α
  | [] => [a]
  | b :: l => if key a ≤ key b then a :: b :: l else b :: insertSorted key a l

/-- Insertion sort, ascending by `key`.  Stable, structurally recursive. -/
def sortBy (key : α → Int) : List α → List α
  | [] => []
  | a :: l => insertSorted key a (sortBy key l)

/-- Keep-first deduplication with an accumulator of already-seen values;
`[...new Set(xs)]` in the source preserves first occurrences. -/
def dedupKeepFirst (seen : List Int) : List Int → List Int
  | [] => []
  | a :: l => if seen.contains a then dedupKeepFirst seen l
              else a :: dedupKeepFirst (a :: seen) l

/-- First element of a sorted list of step orders; `uniqueStepOrders[0]`. -/
def minStepOrderOf : List Int → Option Int
  | [] => none
  | a :: l => match minStepOrderOf l with
    | none => some a
    | some b => some (min a b)

-- ─── Data model ───────────────────────────────────────────────────────────────

structure Role where
  id : String
  code : String
  is_active : Bool
deriving DecidableEq, Repr

structure User where
  id : String
  role_id : Option String
  manager_id : Option String
  is_active : Bool
  deleted : Bool
deriving DecidableEq, Repr

structure ApprovalDelegation where
  id : String
  from_user : String
  to_user : String
  start_date : Int
  end_date : Int
  is_active : Bool
deriving DecidableEq, Repr

structure ApprovalMatrix where
  id : String
  doc_type : String
  project_id : Option String
  min_amount : Option Int
  max_amount : Option Int
  department : Option String
  role_id : Option String
  step_order : Int
  escalation_hours : Option Int
deriving DecidableEq, Repr

structure ApprovalRequest where
  id : String
  doc_type : String
  doc_id : String
  project_id : Option String
  requested_by : String
  current_status : String
  total_steps : Nat
  current_step : Int
  amount : Int
  department : Option String
  is_completed : Bool
  completed_at : Option Int
  created_at : Int
deriving DecidableEq, Repr

structure ApprovalStep where
  id : String
  approval_request_id : String
  step_order : Int
  role_id : Option String
  approver_user : Option String
  status : String
  action : Option String
  remarks : Option String
  approved_at : Option Int
  escalated : Bool
  escalated_to : Option String
deriving DecidableEq, Repr

structure DB where
  roles : List Role
  users : List User
  delegations : List ApprovalDelegation
  matrices : List ApprovalMatrix
  requests : List ApprovalRequest
  steps : List ApprovalStep
deriving DecidableEq, Repr

structure AppError where
  message : String
  statusCode : Nat
deriving DecidableEq, Repr

instance exceptDecEq {ε α : Type} [DecidableEq ε] [DecidableEq α] :
    DecidableEq (Except ε α) := fun a b =>
  match a, b with
  | .error e, .error f => decidable_of_iff (e = f) (by simp)
  | .error _, .ok _ => isFalse (by simp)
  | .ok _, .error _ => isFalse (by simp)
  | .ok x, .ok y => decidable_of_iff (x = y) (by simp)

-- ─── Repository layer (approvals.adapter.js) ─────────────────────────────────

/-- Code of the role a `role_id` points at (`user.roles.code` after the
Prisma `include`); `none` when the user has no role row. -/
def roleCodeOf (db : DB) (role_id : Option String) : Option String :=
  match role_id with
  | none => none
  | some rid => (db.roles.find? (fun r => r.id == rid)).map (fun r => r.code)

/-- `findUserById`: active, non-deleted user. -/
def findUserById (db : DB) (userId : String) : Option User :=
  db.users.find? (fun u => u.id == userId && !u.deleted && u.is_active)

/-- `findUsersByRole`: active, non-deleted holders of the role, in store
order (the "stable order" of the resolver). -/
def findUsersByRole (db : DB) (role_id : String) : List User :=
  db.users.filter (fun u => u.role_id == some role_id && u.is_active && !u.deleted)

/-- `findPendingDelegation`: first active delegation from `userId` whose
window contains `now`. -/
def findPendingDelegation (db : DB) (userId : String) (now : Int) : Option ApprovalDelegation :=
  db.delegations.find? (fun d =>
    d.from_user == userId && d.is_active &&
    decide (d.start_date ≤ now) && decide (now ≤ d.end_date))

/-- `findDelegationsForInbox`: all active delegations to `toUserId` whose
window contains `now`. -/
def findDelegationsForInbox (db : DB) (toUserId : String) (now : Int) : List ApprovalDelegation :=
  db.delegations.filter (fun d =>
    d.to_user == toUserId && d.is_active &&
    decide (d.start_date ≤ now) && decide (now ≤ d.end_date))

/-- `findActiveRequest`: a non-terminal request for the same document.  The
source filter is `current_status in ["pending", "in_progress"]`. -/
def findActiveRequest (db : DB) (docType docId : String) : Option ApprovalRequest :=
  db.requests.find? (fun r =>
    r.doc_type == docType && r.doc_id == docId &&
    (r.current_status == "pending" || r.current_status == "in_progress"))

/-- Amount-range filter of `findMatrices`: inclusive bounds, null unbounded. -/
def matrixAmountOk (m : ApprovalMatrix) (amount : Int) : Bool :=
  (match m.min_amount with | none => true | some v => decide (v ≤ amount)) &&
  (match m.max_amount with | none => true | some v => decide (amount ≤ v))

/-- Department filter of `findMatrices`: applied only when a department is
given (`if (department)` in the source); a null row department matches all. -/
def matrixDeptOk (m : ApprovalMatrix) (department : Option String) : Bool :=
  match department with
  | none => true
  | some d => m.department == none || m.department == some d

/-- `findMatrices`: project-scoped rows first, global (`project_id` null)
fallback when the project-scoped query is empty; ordered by `step_order`
ascending.  `projectId` is modelled as the explicit value of the
`project_id` filter (`some pid` or null). -/
def findMatrices (db : DB) (docType : String) (projectId : Option String)
    (amount : Int) (department : Option String) : List ApprovalMatrix :=
  let base := fun (m : ApprovalMatrix) =>
    m.doc_type == docType && matrixAmountOk m amount && matrixDeptOk m department
  let projectScoped := sortBy (fun m => m.step_order)
    (db.matrices.filter (fun m => base m && m.project_id == projectId))
  if projectScoped.isEmpty then
    sortBy (fun m => m.step_order)
      (db.matrices.filter (fun m => base m && m.project_id == none))
  else projectScoped

/-- `findRequestById` (also `findRequestWithSteps`): the request row. -/
def findRequestById (db : DB) (approvalRequestId : String) : Option ApprovalRequest :=
  db.requests.find? (fun r => r.id == approvalRequestId)

/-- The steps of a request, ordered by `step_order` ascending (the `include`
of `findRequestWithSteps`). -/
def stepsOf (db : DB) (approvalRequestId : String) : List ApprovalStep :=
  sortBy (fun s => s.step_order)
    (db.steps.filter (fun s => s.approval_request_id == approvalRequestId))

/-- `findNextStepOrder`: smallest step order strictly above
`currentStepOrder` that still has a pending step (`findFirst` under an
ascending `orderBy`). -/
def findNextStepOrder (db : DB) (approvalRequestId : String) (currentStepOrder : Int) : Option Int :=
  minStepOrderOf ((db.steps.filter (fun s =>
    s.approval_request_id == approvalRequestId &&
    decide (currentStepOrder < s.step_order) &&
    s.status == "pending")).map (fun s => s.step_order))

-- ─── Approver resolution (approvals.service.js, resolveApprover) ─────────────

structure ResolvedApprover where
  userId : String
  delegated : Bool
deriving DecidableEq, Repr

/-- The candidate loop of `resolveApprover`: skip the requester (unless the
candidate is a super_admin), follow an active delegation unless it points
back at the requester (then skip the candidate), otherwise return the
candidate. -/
def resolveApproverGo (db : DB) (requestedBy : String) (now : Int) :
    List User → Option ResolvedApprover
  | [] => none
  | user :: rest =>
    if user.id == requestedBy && roleCodeOf db user.role_id != some "super_admin" then
      resolveApproverGo db requestedBy now rest
    else
      match findPendingDelegation db user.id now with
      | some d =>
        if d.to_user != requestedBy then some { userId := d.to_user, delegated := true }
        else resolveApproverGo db requestedBy now rest
      | none => some { userId := user.id, delegated := false }

/-- `resolveApprover(roleId, requestedBy)`; `none` is not an error (the step
is later resolved by role match at inbox time). -/
def resolveApprover (db : DB) (roleId : Option String) (requestedBy : String)
    (now : Int) : Option ResolvedApprover :=
  match roleId with
  | none => none
  | some rid => resolveApproverGo db requestedBy now (findUsersByRole db rid)

-- ─── Request creation (approvals.service.js, requestApproval) ────────────────

structure RequestApprovalResult where
  approvalRequestId : String
  currentStatus : String
  totalSteps : Nat
  currentStep : Int
deriving DecidableEq, Repr

/-- `requestApproval`: 409 on an existing active request for the document,
422 when no matrix rule matches, otherwise one transaction inserting the
request (status `in_progress`, `current_step` the first distinct step
order, `total_steps` the count of distinct orders) and one pending step per
matched rule.  `newRequestId` stands for the id the store generates; the
created steps get ids derived from it. -/
def requestApproval (db : DB) (docType docId : String) (projectId : Option String)
    (amount : Int) (department : Option String) (actorId : String) (now : Int)
    (newRequestId : String) : Except AppError (DB × RequestApprovalResult) :=
  match findActiveRequest db docType docId with
  | some existing =>
    .error ⟨"An active approval request already exists for this document (status: "
            ++ existing.current_status ++ ")", 409⟩
  | none =>
    let matrices := findMatrices db docType projectId amount department
    if matrices.isEmpty then
      .error ⟨"No approval matrix configured for this docType, project and amount. Contact the ERP administrator.", 422⟩
    else
      let uniqueStepOrders := sortBy (fun o => o)
        (dedupKeepFirst [] (matrices.map (fun m => m.step_order)))
      let firstStepOrder := uniqueStepOrders.headD 0
      let req : ApprovalRequest :=
        { id := newRequestId, doc_type := docType, doc_id := docId,
          project_id := projectId, requested_by := actorId,
          current_status := "in_progress", total_steps := uniqueStepOrders.length,
          current_step := firstStepOrder, amount := amount,
          department := department, is_completed := false,
          completed_at := none, created_at := now }
      let newSteps := matrices.enum.map (fun p =>
        ({ id := newRequestId ++ "#" ++ toString p.1,
           approval_request_id := newRequestId,
           step_order := p.2.step_order, role_id := p.2.role_id,
           approver_user := (resolveApprover db p.2.role_id actorId now).map
             (fun r => r.userId),
           status := "pending", action := none, remarks := none,
           approved_at := none, escalated := false,
           escalated_to := none } : ApprovalStep))
      .ok ({ db with requests := db.requests ++ [req], steps := db.steps ++ newSteps },
           { approvalRequestId := newRequestId, currentStatus := req.current_status,
             totalSteps := req.total_steps, currentStep := req.current_step })

-- ─── Approve (approvals.service.js, approveStep) ─────────────────────────────

structure StepActionResult where
  approvalRequestId : String
  currentStatus : String
  currentStep : Option Int
  note : Option String
deriving DecidableEq, Repr

/-- The admin override of the orchestrator: super_admin or erp_admin. -/
def isAdminCode (c : Option String) : Bool :=
  c == some "super_admin" || c == some "erp_admin"

/-- The `actableSteps` filter of `approveStep`: a pending step at the
current step order that the actor is assigned to, role-matches, is an
active delegate for, or may act on as an administrator. -/
def actableForApprove (db : DB) (request : ApprovalRequest) (actor : User)
    (now : Int) (s : ApprovalStep) : Bool :=
  s.step_order == request.current_step &&
  s.status == "pending" &&
  (isAdminCode (roleCodeOf db actor.role_id) ||
   s.approver_user == some actor.id ||
   s.role_id == actor.role_id ||
   (match s.approver_user with
    | some a => ((findDelegationsForInbox db actor.id now).map
        (fun d => d.from_user)).contains a
    | none => false))

/-- The per-row update of the approve transaction: a step whose id is
among the actable steps is marked approved and stamped with the actor,
the timestamp and the remarks. -/
def approveMark (actorId : String) (remarks : Option String) (now : Int)
    (actableSteps : List ApprovalStep) (s : ApprovalStep) : ApprovalStep :=
  if actableSteps.any (fun a => a.id == s.id) then
    { s with status := "approved", action := some "approve", remarks := remarks,
             approved_at := some now, approver_user := some actorId }
  else s

/-- `approveStep`: guards, the actable-step filter, the idempotent
already-approved return, then one transaction approving the actable steps
and either waiting (parallel group incomplete), advancing `current_step`,
or completing the request as approved. -/
def approveStep (db : DB) (approvalRequestId actorId : String)
    (remarks : Option String) (now : Int) : Except AppError (DB × StepActionResult) :=
  match findUserById db actorId with
  | none => .error ⟨"Actor user not found", 404⟩
  | some actor =>
  match findRequestById db approvalRequestId with
  | none => .error ⟨"Approval request not found", 404⟩
  | some request =>
  if request.current_status != "in_progress" then
    .error ⟨"Cannot approve — request is already terminal", 409⟩
  else if request.requested_by == actorId && !isAdminCode (roleCodeOf db actor.role_id) then
    .error ⟨"Self-approval is not allowed", 403⟩
  else
    let steps := stepsOf db approvalRequestId
    let actableSteps := steps.filter (actableForApprove db request actor now)
    if actableSteps.isEmpty then
      match steps.find? (fun s =>
          s.step_order == request.current_step &&
          (s.approver_user == some actorId || s.role_id == actor.role_id) &&
          s.status == "approved") with
      | some _ =>
        .ok (db, { approvalRequestId := approvalRequestId,
                   currentStatus := request.current_status,
                   currentStep := some request.current_step,
                   note := some "Already approved at this step" })
      | none => .error ⟨"No pending approval step found for you at the current step", 403⟩
    else
      let db1 : DB := { db with
        steps := db.steps.map (approveMark actorId remarks now actableSteps) }
      let stillPending := (steps.filter (fun s => s.step_order == request.current_step)).filter
        (fun s => !(actableSteps.any (fun a => a.id == s.id)) && s.status == "pending")
      if !stillPending.isEmpty then
        .ok (db1, { approvalRequestId := approvalRequestId,
                    currentStatus := request.current_status,
                    currentStep := some request.current_step, note := none })
      else
        match findNextStepOrder db approvalRequestId request.current_step with
        | some nextOrder =>
          .ok ({ db1 with requests := db1.requests.map (fun r =>
                  if r.id == approvalRequestId then { r with current_step := nextOrder } else r) },
               { approvalRequestId := approvalRequestId,
                 currentStatus := request.current_status,
                 currentStep := some nextOrder, note := none })
        | none =>
          .ok ({ db1 with requests := db1.requests.map (fun r =>
                  if r.id == approvalRequestId then
                    { r with current_status := "approved", is_completed := true,
                             completed_at := some now } else r) },
               { approvalRequestId := approvalRequestId,
                 currentStatus := "approved", currentStep := none, note := none })

/-- The intermediate values of the approve transaction, named for the
analysis: the actable steps of the actor, ... -/
def approveActable (db : DB) (rid : String) (request : ApprovalRequest)
    (actor : User) (now : Int) : List ApprovalStep :=
  (stepsOf db rid).filter (actableForApprove db request actor now)

/-- ... the store after marking the actable steps approved, ... -/
def approveDb1 (db : DB) (rid actorId : String) (remarks : Option String)
    (now : Int) (request : ApprovalRequest) (actor : User) : DB :=
  { db with
    steps := db.steps.map
      (approveMark actorId remarks now (approveActable db rid request actor now)) }

/-- ... and the steps of the current parallel group still pending after it. -/
def approveStillPending (db : DB) (rid : String) (request : ApprovalRequest)
    (actor : User) (now : Int) : List ApprovalStep :=
  ((stepsOf db rid).filter (fun s => s.step_order == request.current_step)).filter
    (fun s => !((approveActable db rid request actor now).any (fun a => a.id == s.id)) &&
      s.status == "pending")

-- ─── Reject (approvals.service.js, rejectStep) ───────────────────────────────

structure SimpleResult where
  approvalRequestId : String
  currentStatus : String
deriving DecidableEq, Repr

/-- The `actableStep` filter of `rejectStep`: unlike approve, a pending step
at the current order is actionable only for an administrator, the assigned
approver, or a holder of the step's role — there is no delegation case. -/
def actableForReject (db : DB) (request : ApprovalRequest) (actor : User)
    (s : ApprovalStep) : Bool :=
  s.step_order == request.current_step &&
  s.status == "pending" &&
  (isAdminCode (roleCodeOf db actor.role_id) ||
   s.approver_user == some actor.id ||
   s.role_id == actor.role_id)

/-- `rejectStep`: guards, the (delegation-free) actable filter, then one
transaction rejecting the acted step, cascading the request to
rejected/completed and skipping every remaining pending step. -/
def rejectStep (db : DB) (approvalRequestId actorId : String)
    (remarks : Option String) (now : Int) : Except AppError (DB × SimpleResult) :=
  match findUserById db actorId with
  | none => .error ⟨"Actor user not found", 404⟩
  | some actor =>
  match findRequestById db approvalRequestId with
  | none => .error ⟨"Approval request not found", 404⟩
  | some request =>
  if request.current_status != "in_progress" then
    .error ⟨"Cannot reject — request is already terminal", 409⟩
  else
    match (stepsOf db approvalRequestId).find? (actableForReject db request actor) with
    | none => .error ⟨"No pending approval step found for you at the current step", 403⟩
    | some actableStep =>
      let db1 : DB := { db with steps := db.steps.map (fun s =>
        if s.id == actableStep.id then
          { s with status := "rejected", action := some "reject",
                   remarks := remarks, approved_at := some now,
                   approver_user := some actorId }
        else s) }
      let db2 : DB := { db1 with requests := db1.requests.map (fun r =>
        if r.id == approvalRequestId then
          { r with current_status := "rejected", is_completed := true,
                   completed_at := some now } else r) }
      let db3 : DB := { db2 with steps := db2.steps.map (fun s =>
        if s.approval_request_id == approvalRequestId && s.status == "pending" then
          { s with status := "skipped" } else s) }
      .ok (db3, { approvalRequestId := approvalRequestId, currentStatus := "rejected" })

-- ─── Cancel (approvals.service.js, cancelApproval) ───────────────────────────

/-- `cancelApproval`: only the requester, or an actor whose role code is the
literal string "SUPER_ADMIN" compared by `actor.roles?.code === "SUPER_ADMIN"`,
may cancel an in-progress request; cancels it, completes it and skips the
remaining pending steps. -/
def cancelApproval (db : DB) (approvalRequestId actorId : String) (now : Int) :
    Except AppError (DB × SimpleResult) :=
  match findUserById db actorId with
  | none => .error ⟨"User not found", 404⟩
  | some actor =>
  match findRequestById db approvalRequestId with
  | none => .error ⟨"Approval request not found", 404⟩
  | some request =>
  if request.current_status != "in_progress" then
    .error ⟨"Cannot cancel — request is not in progress", 409⟩
  else if !(request.requested_by == actorId || roleCodeOf db actor.role_id == some "SUPER_ADMIN") then
    .error ⟨"Only the requester or an admin can cancel an approval", 403⟩
  else
    let db1 : DB := { db with requests := db.requests.map (fun r =>
      if r.id == approvalRequestId then
        { r with current_status := "cancelled", is_completed := true,
                 completed_at := some now } else r) }
    let db2 : DB := { db1 with steps := db1.steps.map (fun s =>
      if s.approval_request_id == approvalRequestId && s.status == "pending" then
        { s with status := "skipped" } else s) }
    .ok (db2, { approvalRequestId := approvalRequestId, currentStatus := "cancelled" })

-- ─── Escalation worker (escalation.worker.js) ────────────────────────────────

/-- `resolveEscalationTarget`: the approver's active manager first, then the
first active user holding the role whose code is "SUPER_ADMIN", else none. -/
def resolveEscalationTarget (db : DB) (approverUserId : Option String) : Option String :=
  let fromManager : Option String :=
    match approverUserId with
    | none => none
    | some uid =>
      match db.users.find? (fun u => u.id == uid && !u.deleted) with
      | none => none
      | some approver =>
        match approver.manager_id with
        | none => none
        | some mid =>
          (db.users.find? (fun u => u.id == mid && u.is_active && !u.deleted)).map
            (fun m => m.id)
  match fromManager with
  | some m => some m
  | none =>
    match db.roles.find? (fun r => r.code == "SUPER_ADMIN" && r.is_active) with
    | none => none
    | some adminRole =>
      (db.users.find? (fun u =>
        u.role_id == some adminRole.id && u.is_active && !u.deleted)).map (fun u => u.id)

/-- The matrix row the worker reads the SLA from: first row for the step's
doc type and step order whose `escalation_hours` is not null. -/
def escalationSlaMatrix (db : DB) (docType : String) (stepOrder : Int) : Option ApprovalMatrix :=
  db.matrices.find? (fun m =>
    m.doc_type == docType && m.step_order == stepOrder && m.escalation_hours.isSome)

/-- One loop body of `runEscalation` for a selected step: look up the parent
request and the SLA row (both from the scan's snapshot `db0`), skip when the
SLA is absent or zero (the source tests `!matrix?.escalation_hours`, so a
zero-hours SLA is falsy and skipped) or the request is younger than the SLA,
otherwise set `escalated` and `escalated_to` on the step.  The age test
`ageHours < escalation_hours` is modelled exactly over the integers as
`now - created_at < hours * 3600000`.  Returns the updated store and
whether an escalation was written. -/
def escalateOne (db0 : DB) (now : Int) (db : DB) (s : ApprovalStep) : DB × Bool :=
  match db0.requests.find? (fun r => r.id == s.approval_request_id) with
  | none => (db, false)
  | some request =>
    match escalationSlaMatrix db0 request.doc_type s.step_order with
    | none => (db, false)
    | some matrix =>
      match matrix.escalation_hours with
      | none => (db, false)
      | some h =>
        if h == 0 then (db, false)
        else if now - request.created_at < h * 3600000 then (db, false)
        else
          let target := resolveEscalationTarget db0 s.approver_user
          ({ db with steps := db.steps.map (fun t =>
              if t.id == s.id then { t with escalated := true, escalated_to := target }
              else t) },
           true)

/-- The scan loop of `runEscalation` over the selected steps.  `fails` is
the oracle for per-step storage errors: the source catches and counts them
without aborting the scan, so a failing step performs no write and the
loop goes on. -/
def escalationFold (db : DB) (now : Int) (fails : ApprovalStep → Bool)
    (l : List ApprovalStep) (acc : DB × Nat × Nat) : DB × Nat × Nat :=
  l.foldl (fun acc s =>
    if fails s then (acc.1, acc.2.1, acc.2.2 + 1)
    else
      let step_result := escalateOne db now acc.1 s
      (step_result.1, if step_result.2 then acc.2.1 + 1 else acc.2.1, acc.2.2))
    acc

/-- The steps `runEscalation` selects: pending, not yet escalated, parent
request still in progress. -/
def activePendingSteps (db : DB) : List ApprovalStep :=
  (db.steps.filter (fun s => s.status == "pending" && !s.escalated)).filter (fun s =>
    match db.requests.find? (fun r => r.id == s.approval_request_id) with
    | some r => r.current_status == "in_progress"
    | none => false)

/-- `runEscalation`: select the pending, non-escalated steps whose parent
request is in progress, then process each in turn.  Returns the store, the
escalated count and the error count. -/
def runEscalation (db : DB) (now : Int) (fails : ApprovalStep → Bool) : DB × Nat × Nat :=
  escalationFold db now fails (activePendingSteps db) (db, 0, 0)

/-- Whether `escalateOne` writes for this step: the first SLA row for the
step's document type and order exists, its hours are nonzero (the source's
falsy test on `escalation_hours`), and the request age has reached the SLA.
Depends only on the scan snapshot, not on the accumulating store. -/
def escalateWrites (db : DB) (now : Int) (s : ApprovalStep) : Bool :=
  match db.requests.find? (fun r => r.id == s.approval_request_id) with
  | none => false
  | some request =>
    match escalationSlaMatrix db request.doc_type s.step_order with
    | none => false
    | some matrix =>
      match matrix.escalation_hours with
      | none => false
      | some h => !(h == 0) && !(decide (now - request.created_at < h * 3600000))

/-- The claim's escalation criterion, with the amendment that the SLA must
be nonzero: the step is pending, not yet escalated, its parent request in
progress, and the (first) matching SLA row has nonzero hours the request
age has reached. -/
def escalationDue (db : DB) (now : Int) (s : ApprovalStep) : Bool :=
  s.status == "pending" && !s.escalated &&
  (match db.requests.find? (fun r => r.id == s.approval_request_id) with
   | some r => r.current_status == "in_progress"
   | none => false) &&
  escalateWrites db now s

/-- Priority (a) of the escalation target: the approver's manager, when the
approver row exists and the manager is active and not deleted. -/
def activeManagerOf (db : DB) (approverUserId : Option String) : Option String :=
  match approverUserId with
  | none => none
  | some uid =>
    match db.users.find? (fun u => u.id == uid && !u.deleted) with
    | none => none
    | some approver =>
      match approver.manager_id with
      | none => none
      | some mid =>
        (db.users.find? (fun u => u.id == mid && u.is_active && !u.deleted)).map
          (fun m => m.id)

/-- The second tier of the worker's target lookup, modelled literally from
the source: the first active, non-deleted holder of an active role whose
code is the literal "SUPER_ADMIN".  The repository seeds its
top-administrator roles as "super_admin" and "erp_admin"
(prisma/seed_rbac.js — the codes the approve/reject/cancel paths compare
against), so on a seeded store this tier resolves nobody. -/
def superAdminCodeFallback (db : DB) : Option String :=
  match db.roles.find? (fun r => r.code == "SUPER_ADMIN" && r.is_active) with
  | none => none
  | some adminRole =>
    (db.users.find? (fun u =>
      u.role_id == some adminRole.id && u.is_active && !u.deleted)).map (fun u => u.id)

-- ─── Delegations (delegations.service.js, createDelegation) ──────────────────

/-- `createDelegation`: self-delegation guard, existence guards, the
circular guard (an active reverse delegation not yet past its end date) and
the overlap guard (an active delegation of the same grantor whose window
meets the requested one), then the insert. -/
def createDelegation (db : DB) (fromUser toUser : String) (startDate endDate : Int)
    (now : Int) (newId : String) : Except AppError (DB × ApprovalDelegation) :=
  if fromUser == toUser then
    .error ⟨"A user cannot delegate to themselves", 400⟩
  else
    match db.users.find? (fun u => u.id == fromUser && !u.deleted && u.is_active) with
    | none => .error ⟨"fromUser not found or inactive", 404⟩
    | some _ =>
    match db.users.find? (fun u => u.id == toUser && !u.deleted && u.is_active) with
    | none => .error ⟨"toUser not found or inactive", 404⟩
    | some _ =>
    if db.delegations.any (fun d =>
        d.from_user == toUser && d.to_user == fromUser && d.is_active &&
        decide (now ≤ d.end_date)) then
      .error ⟨"Circular delegation detected — the target user already delegates back to this user", 409⟩
    else if db.delegations.any (fun d =>
        d.from_user == fromUser && d.is_active &&
        decide (d.start_date ≤ endDate) && decide (startDate ≤ d.end_date)) then
      .error ⟨"An active delegation for this user already overlaps with the requested period", 409⟩
    else
      let d : ApprovalDelegation :=
        { id := newId, from_user := fromUser, to_user := toUser,
          start_date := startDate, end_date := endDate, is_active := true }
      .ok ({ db with delegations := db.delegations ++ [d] }, d)

-- ─── SHA-256 (crypto.createHash("sha256"), idempotency.service.js) ───────────

/-- Truncation to a 32-bit word. -/
def w32 (n : Nat) : Nat := n % 4294967296

/-- 32-bit right rotation. -/
def rotr (x n : Nat) : Nat := w32 ((x >>> n) ||| (x <<< (32 - n)))

def bigSigma0 (x : Nat) : Nat := rotr x 2 ^^^ rotr x 13 ^^^ rotr x 22

def bigSigma1 (x : Nat) : Nat := rotr x 6 ^^^ rotr x 11 ^^^ rotr x 25

def smallSigma0 (x : Nat) : Nat := rotr x 7 ^^^ rotr x 18 ^^^ (x >>> 3)

def smallSigma1 (x : Nat) : Nat := rotr x 17 ^^^ rotr x 19 ^^^ (x >>> 10)

def chFn (x y z : Nat) : Nat := (x &&& y) ^^^ ((x ^^^ 4294967295) &&& z)

def majFn (x y z : Nat) : Nat := (x &&& y) ^^^ (x &&& z) ^^^ (y &&& z)

/-- The 64 SHA-256 round constants (decimal). -/
def sha256K : List Nat :=
  [1116352408, 1899447441, 3049323471, 3921009573,
   961987163, 1508970993, 2453635748, 2870763221,
   3624381080, 310598401, 607225278, 1426881987,
   1925078388, 2162078206, 2614888103, 3248222580,
   3835390401, 4022224774, 264347078, 604807628,
   770255983, 1249150122, 1555081692, 1996064986,
   2554220882, 2821834349, 2952996808, 3210313671,
   3336571891, 3584528711, 113926993, 338241895,
   666307205, 773529912, 1294757372, 1396182291,
   1695183700, 1986661051, 2177026350, 2456956037,
   2730485921, 2820302411, 3259730800, 3345764771,
   3516065817, 3600352804, 4094571909, 275423344,
   430227734, 506948616, 659060556, 883997877,
   958139571, 1322822218, 1537002063, 1747873779,
   1955562222, 2024104815, 2227730452, 2361852424,
   2428436474, 2756734187, 3204031479, 3329325298]

/-- The SHA-256 initial hash value (decimal). -/
def sha256H0 : List Nat :=
  [1779033703, 3144134277, 1013904242, 2773480762,
   1359893119, 2600822924, 528734635, 1541459225]

/-- Big-endian bytes of the 64-bit message bit length. -/
def lengthBytes (bitLen : Nat) : List Nat :=
  [(bitLen >>> 56) % 256, (bitLen >>> 48) % 256, (bitLen >>> 40) % 256,
   (bitLen >>> 32) % 256, (bitLen >>> 24) % 256, (bitLen >>> 16) % 256,
   (bitLen >>> 8) % 256, bitLen % 256]

/-- SHA-256 padding: 0x80, zeros to 56 mod 64, then the bit length. -/
def padMessage (msg : List Nat) : List Nat :=
  let len := msg.length
  let zeros := (64 + 56 - ((len + 1) % 64)) % 64
  msg ++ [0x80] ++ List.replicate zeros 0 ++ lengthBytes (len * 8)

/-- Split into 64-byte blocks (the padded length is a multiple of 64). -/
def chunksGo : Nat → List Nat → List (List Nat)
  | 0, _ => []
  | n + 1, l => l.take 64 :: chunksGo n (l.drop 64)

def chunks64 (l : List Nat) : List (List Nat) := chunksGo (l.length / 64) l

/-- Big-endian 32-bit words from bytes. -/
def bytesToWordsGo : Nat → List Nat → List Nat
  | 0, _ => []
  | n + 1, b0 :: b1 :: b2 :: b3 :: rest =>
    (((b0 * 256 + b1) * 256 + b2) * 256 + b3) :: bytesToWordsGo n rest
  | _ + 1, _ => []

/-- Message schedule: extend 16 words to 64. -/
def sha256Schedule (ws : List Nat) : List Nat :=
  (List.range 48).foldl (fun w _ =>
    let n := w.length
    w ++ [w32 (smallSigma1 (w.getD (n - 2) 0) + w.getD (n - 7) 0 +
               smallSigma0 (w.getD (n - 15) 0) + w.getD (n - 16) 0)]) ws

/-- One SHA-256 compression over a 64-byte block. -/
def sha256Compress (h : List Nat) (block : List Nat) : List Nat :=
  let w := sha256Schedule (bytesToWordsGo 16 block)
  let final := (w.zip sha256K).foldl (fun st wk =>
    match st with
    | [a, b, c, d, e, f, g, hh] =>
      let t1 := w32 (hh + bigSigma1 e + chFn e f g + wk.2 + wk.1)
      let t2 := w32 (bigSigma0 a + majFn a b c)
      [w32 (t1 + t2), a, b, c, w32 (d + t1), e, f, g]
    | other => other) h
  (h.zip final).map (fun p => w32 (p.1 + p.2))

/-- SHA-256 digest of a byte list, as eight 32-bit words. -/
def sha256Words (msg : List Nat) : List Nat :=
  (chunks64 (padMessage msg)).foldl sha256Compress sha256H0

/-- Bytes of a string (code points; identical to UTF-8 for ASCII payloads). -/
def strBytes (s : String) : List Nat := s.data.map (fun c => c.toNat)

/-- `hashBody`: SHA-256 of the serialized request body.  The source takes
the first 64 hex characters of the hex digest, which is the whole digest,
so the digest words carry the same information. -/
def hashBody (body : String) : List Nat := sha256Words (strBytes body)

/-- Modelled from the spec: the spec's fingerprint is the SHA-256 of the
pair (route, body); the serialization of the pair is not spelled out in the
spec, so the route bytes are prepended to the body bytes. -/
def hashPairSpec (route body : String) : List Nat :=
  sha256Words (strBytes route ++ strBytes body)

-- ─── Idempotency guard (idempotency.service.js, idempotency.middleware.js) ───

structure IdempotencyKeyRecord where
  key : String
  user_id : Option String
  route : String
  request_hash : List Nat
  response_body : String
  expires_at : Int
deriving DecidableEq, Repr

inductive GuardOutcome where
  /-- Proceed to the controller; the store after deleting an expired record. -/
  | pass (store : List IdempotencyKeyRecord)
  /-- Return the cached response; no controller call. -/
  | replay (response : String)
  /-- 409: the key was already used with a different payload. -/
  | conflict
deriving DecidableEq, Repr

/-- `idempotent()` up to the controller call: absent key is a no-op
passthrough; otherwise `checkIdempotency` on the body fingerprint — an
expired record is deleted and the key treated as unused, a matching
fingerprint replays the cached response, a differing one conflicts.
`userId` and `route` are passed through as in the source's
`checkIdempotency(key, userId, route, requestHash)`, which compares
neither. -/
def idempotencyGuard (store : List IdempotencyKeyRecord) (key : Option String)
    (userId : Option String) (route : String)
    (body : String) (now : Int) : GuardOutcome :=
  match key with
  | none => .pass store
  | some k =>
    let reqHash := hashBody body
    match store.find? (fun r => r.key == k) with
    | none => .pass store
    | some existing =>
      if existing.expires_at < now then .pass (store.filter (fun r => r.key != k))
      else if existing.request_hash == reqHash then .replay existing.response_body
      else .conflict

/-- `saveIdempotency`: upsert of the key with a 24-hour expiry (the default
`ttlMinutes = 1440`); an existing row only gets its response body updated. -/
def saveIdempotency (store : List IdempotencyKeyRecord) (k : String)
    (userId : Option String) (route : String) (requestHash : List Nat)
    (responseBody : String) (now : Int) : List IdempotencyKeyRecord :=
  if store.any (fun r => r.key == k) then
    store.map (fun r => if r.key == k then { r with response_body := responseBody } else r)
  else
    store ++ [{ key := k, user_id := userId, route := route,
                request_hash := requestHash, response_body := responseBody,
                expires_at := now + 1440 * 60 * 1000 }]

/-- The full middleware around a controller: on passthrough run the handler
(a state transformer returning the new state, the response body and the
HTTP status) and persist the fingerprint on a 2xx response; on replay or
conflict the handler is never invoked. -/
def handleWithIdempotency (store : List IdempotencyKeyRecord) (st : Nat)
    (handler : Nat → Nat × String × Nat) (key : Option String)
    (userId : Option String) (route : String) (body : String) (now : Int) :
    Nat × List IdempotencyKeyRecord × Nat × String :=
  match idempotencyGuard store key userId route body now with
  | .pass store1 =>
    let r := handler st
    let store2 :=
      match key with
      | some k =>
        if 200 ≤ r.2.2 && r.2.2 < 300 then
          saveIdempotency store1 k userId route (hashBody body) r.2.1 now
        else store1
      | none => store1
    (r.1, store2, r.2.2, r.2.1)
  | .replay resp => (st, store, 200, resp)
  | .conflict =>
    (st, store, 409,
     "Idempotency conflict: this key was already used with a different request payload")

-- ─── Claim-side predicates ───────────────────────────────────────────────────

/-- The claim's amount filter: the range contains the amount, with inclusive
bounds and a null bound unbounded. -/
def amountInRange (m : ApprovalMatrix) (amount : Int) : Prop :=
  (match m.min_amount with | none => True | some v => v ≤ amount) ∧
  (match m.max_amount with | none => True | some v => amount ≤ v)

/-- The claim's department filter: when a department is given, the rule's
department is null or equal to it. -/
def deptMatches (m : ApprovalMatrix) (department : Option String) : Prop :=
  match department with
  | none => True
  | some d => m.department = none ∨ m.department = some d

/-- The claim's base filter of `findMatrices` (document type, amount range,
department). -/
def matrixMatchesBase (m : ApprovalMatrix) (docType : String) (amount : Int)
    (department : Option String) : Prop :=
  m.doc_type = docType ∧ amountInRange m amount ∧ deptMatches m department

instance (m : ApprovalMatrix) (amount : Int) : Decidable (amountInRange m amount) :=
  decidable_of_iff (matrixAmountOk m amount = true) (by
    unfold matrixAmountOk amountInRange
    cases m.min_amount <;> cases m.max_amount <;> simp)

instance (m : ApprovalMatrix) (department : Option String) : Decidable (deptMatches m department) :=
  decidable_of_iff (matrixDeptOk m department = true) (by
    unfold matrixDeptOk deptMatches
    cases department <;> simp)

instance (m : ApprovalMatrix) (docType : String) (amount : Int) (department : Option String) :
    Decidable (matrixMatchesBase m docType amount department) := by
  unfold matrixMatchesBase
  exact inferInstance

/-- The claim's reasons for the resolver to pass over a candidate: the
candidate is the requester without the top administrative role, or the
candidate's active delegation points back at the requester. -/
def candidateSkipped (db : DB) (requestedBy : String) (now : Int) (c : User) : Prop :=
  (c.id = requestedBy ∧ roleCodeOf db c.role_id ≠ some "super_admin") ∨
  (∃ d, findPendingDelegation db c.id now = some d ∧ d.to_user = requestedBy)

/-- How a non-passed-over candidate resolves: through its active delegation
when the delegate is not the requester (marked as a redirect), else as
itself. -/
def candidateResolvesTo (db : DB) (requestedBy : String) (now : Int) (c : User)
    (res : ResolvedApprover) : Prop :=
  (c.id ≠ requestedBy ∨ roleCodeOf db c.role_id = some "super_admin") ∧
  ((∃ d, findPendingDelegation db c.id now = some d ∧ d.to_user ≠ requestedBy ∧
      res = { userId := d.to_user, delegated := true }) ∨
   (findPendingDelegation db c.id now = none ∧
      res = { userId := c.id, delegated := false }))

-- ─── Concrete fixtures for C1 ────────────────────────────────────────────────

/-- A store with an in-progress request already active for (PR, D1). -/
def dbC1a : DB :=
  { roles := [], users := [], delegations := [], matrices := [],
    requests := [{ id := "rA", doc_type := "PR", doc_id := "D1", project_id := none,
                   requested_by := "u", current_status := "in_progress", total_steps := 1,
                   current_step := 1, amount := 0, department := none, is_completed := false,
                   completed_at := none, created_at := 0 }],
    steps := [] }

/-- An empty store: no active request and no matrix rules. -/
def dbC1b : DB :=
  { roles := [], users := [], delegations := [], matrices := [], requests := [],
    steps := [] }

/-- A global PR rule at step order 1 with unbounded amounts. -/
def mC1 : ApprovalMatrix :=
  { id := "mm", doc_type := "PR", project_id := none, min_amount := none,
    max_amount := none, department := none, role_id := none, step_order := 1,
    escalation_hours := none }

/-- No active request, one matching rule. -/
def dbC1c : DB := { dbC1b with matrices := [mC1] }

-- ─── Concrete fixtures for C4 ────────────────────────────────────────────────

/-- amy, the step's assigned approver (role r1). -/
def amyC4 : User :=
  { id := "amy", role_id := some "r1", manager_id := none,
    is_active := true, deleted := false }

/-- dave, an active delegate of amy with a different role. -/
def daveC4 : User :=
  { id := "dave", role_id := some "r2", manager_id := none,
    is_active := true, deleted := false }

/-- An in-progress request by rex at step order 1. -/
def reqC4 : ApprovalRequest :=
  { id := "R", doc_type := "PR", doc_id := "D9", project_id := none,
    requested_by := "rex", current_status := "in_progress", total_steps := 1,
    current_step := 1, amount := 10, department := none, is_completed := false,
    completed_at := none, created_at := 0 }

/-- One pending step assigned to amy; dave holds an active delegation from
amy, so dave may approve (delegate case of the approve filter) but the
reject filter has no delegation case. -/
def dbC4 : DB :=
  { roles := [{ id := "r1", code := "project_manager", is_active := true },
              { id := "r2", code := "site_engineer", is_active := true }],
    users := [amyC4, daveC4],
    delegations := [{ id := "dg", from_user := "amy", to_user := "dave",
                      start_date := 0, end_date := 100, is_active := true }],
    matrices := [],
    requests := [reqC4],
    steps := [{ id := "s1", approval_request_id := "R", step_order := 1,
                role_id := some "r1", approver_user := some "amy", status := "pending",
                action := none, remarks := none, approved_at := none,
                escalated := false, escalated_to := none }] }

-- ─── Concrete fixtures for C5 ────────────────────────────────────────────────

/-- A pending step approved by bob, whose manager mgr is active. -/
def stAC5 : ApprovalStep :=
  { id := "stA", approval_request_id := "r1", step_order := 1, role_id := some "rr",
    approver_user := some "bob", status := "pending", action := none, remarks := none,
    approved_at := none, escalated := false, escalated_to := none }

/-- A parallel pending step approved by carol, who has no manager. -/
def stBC5 : ApprovalStep :=
  { id := "stB", approval_request_id := "r1", step_order := 1, role_id := some "rr",
    approver_user := some "carol", status := "pending", action := none, remarks := none,
    approved_at := none, escalated := false, escalated_to := none }

/-- An in-progress PR request created at time 0 with two pending parallel
steps and a 24-hour SLA configured on the matching matrix row. -/
def dbC5 : DB :=
  { roles := [],
    users := [{ id := "mgr", role_id := none, manager_id := none,
                is_active := true, deleted := false },
              { id := "bob", role_id := none, manager_id := some "mgr",
                is_active := true, deleted := false },
              { id := "carol", role_id := none, manager_id := none,
                is_active := true, deleted := false }],
    delegations := [],
    matrices := [{ id := "mx1", doc_type := "PR", project_id := none, min_amount := none,
                   max_amount := none, department := none, role_id := some "rr",
                   step_order := 1, escalation_hours := some 24 }],
    requests := [{ id := "r1", doc_type := "PR", doc_id := "D1", project_id := none,
                   requested_by := "ray", current_status := "in_progress", total_steps := 1,
                   current_step := 1, amount := 10, department := none, is_completed := false,
                   completed_at := none, created_at := 0 }],
    steps := [stAC5, stBC5] }

/-- stB after the scan escalates it. -/
def stBC5esc : ApprovalStep :=
  { stBC5 with escalated := true,
               escalated_to := resolveEscalationTarget dbC5 stBC5.approver_user }

/-- A pending step approved by carl, who has no manager. -/
def stSC5 : ApprovalStep :=
  { id := "stS", approval_request_id := "R5", step_order := 1, role_id := some "rr",
    approver_user := some "carl", status := "pending", action := none, remarks := none,
    approved_at := none, escalated := false, escalated_to := none }

/-- A store with the seeded top-administrator role (code "super_admin", as
created by prisma/seed_rbac.js) held by the active user sue, and an
in-progress request past its one-hour SLA whose pending step is approved
by carl, who has no manager. -/
def dbC5sa : DB :=
  { roles := [{ id := "r_sup", code := "super_admin", is_active := true }],
    users := [{ id := "carl", role_id := none, manager_id := none,
                is_active := true, deleted := false },
              { id := "sue", role_id := some "r_sup", manager_id := none,
                is_active := true, deleted := false }],
    delegations := [],
    matrices := [{ id := "m5", doc_type := "PR", project_id := none, min_amount := none,
                   max_amount := none, department := none, role_id := some "rr",
                   step_order := 1, escalation_hours := some 1 }],
    requests := [{ id := "R5", doc_type := "PR", doc_id := "D5", project_id := none,
                   requested_by := "ray", current_status := "in_progress", total_steps := 1,
                   current_step := 1, amount := 10, department := none, is_completed := false,
                   completed_at := none, created_at := 0 }],
    steps := [stSC5] }

/-- Same shape with a zero-hours SLA configured on the matrix row and one
pending step far past any threshold. -/
def dbC5z : DB :=
  { dbC5 with
    matrices := [{ id := "mz", doc_type := "PR", project_id := none, min_amount := none,
                   max_amount := none, department := none, role_id := some "rr",
                   step_order := 1, escalation_hours := some 0 }],
    steps := [stAC5] }

-- ─── Concrete fixtures for C3 ────────────────────────────────────────────────

/-- A non-expired idempotency record created from a call on route "/a" with
body "x": its stored fingerprint is the body hash. -/
def recC3 : IdempotencyKeyRecord :=
  { key := "k", user_id := none, route := "/a", request_hash := hashBody "x",
    response_body := "cached", expires_at := 10 }

/-- A record with a fingerprint from a different body. -/
def recC3b : IdempotencyKeyRecord :=
  { key := "k", user_id := none, route := "/a", request_hash := hashBody "y",
    response_body := "cached", expires_at := 10 }

/-- A delegation row active at time `t`: flag set and window containing `t`. -/
def delegationActiveAt (d : ApprovalDelegation) (t : Int) : Prop :=
  d.is_active = true ∧ d.start_date ≤ t ∧ t ≤ d.end_date

/-- The claim's first invariant: no two distinct active delegations from
the same user have overlapping windows. -/
def overlapFree (l : List ApprovalDelegation) : Prop :=
  ∀ d1 ∈ l, ∀ d2 ∈ l, d1 ≠ d2 → d1.from_user = d2.from_user →
    d1.is_active = true → d2.is_active = true →
    ¬(d1.start_date ≤ d2.end_date ∧ d2.start_date ≤ d1.end_date)

/-- The claim's second invariant at time `t`: no 2-cycle of delegations is
active simultaneously. -/
def noTwoCycleAt (l : List ApprovalDelegation) (t : Int) : Prop :=
  ¬∃ d1 ∈ l, ∃ d2 ∈ l, d1.from_user = d2.to_user ∧ d1.to_user = d2.from_user ∧
    delegationActiveAt d1 t ∧ delegationActiveAt d2 t

instance (d : ApprovalDelegation) (t : Int) : Decidable (delegationActiveAt d t) := by
  unfold delegationActiveAt
  exact inferInstance

instance (l : List ApprovalDelegation) : Decidable (overlapFree l) := by
  unfold overlapFree
  exact inferInstance

instance (l : List ApprovalDelegation) (t : Int) : Decidable (noTwoCycleAt l t) := by
  unfold noTwoCycleAt
  exact inferInstance

/-- Claim-side predicate for C2: some step of the request at the given
step order is still `pending`. -/
def hasPendingAt (db : DB) (rid : String) (o : Int) : Bool :=
  db.steps.any (fun s => s.approval_request_id == rid && s.step_order == o &&
    s.status == "pending")

-- ─── Concrete fixtures for C10 ───────────────────────────────────────────────

/-- Two active users and no delegations yet. -/
def dbC10 : DB :=
  { roles := [],
    users := [{ id := "frank", role_id := none, manager_id := none,
                is_active := true, deleted := false },
              { id := "gina", role_id := none, manager_id := none,
                is_active := true, deleted := false }],
    delegations := [], matrices := [], requests := [], steps := [] }

/-- The record `createDelegation dbC10 "frank" "gina" 10 20` inserts. -/
def dNewC10 : ApprovalDelegation :=
  { id := "n1", from_user := "frank", to_user := "gina",
    start_date := 10, end_date := 20, is_active := true }

def dbC10' : DB := { dbC10 with delegations := [dNewC10] }

/-- Same users, but gina already delegates back to frank. -/
def dbC10b : DB :=
  { dbC10 with delegations := [{ id := "d0", from_user := "gina", to_user := "frank",
                                 start_date := 0, end_date := 100, is_active := true }] }

-- ─── Concrete fixture for C7 ─────────────────────────────────────────────────

/-- Role r1 with two active holders: carl, whose delegation points back at
the requester rex (so he is skipped), and dana, whose delegation forwards
to eve. -/
def dbC7 : DB :=
  { roles := [{ id := "r1", code := "project_manager", is_active := true }],
    users := [{ id := "carl", role_id := some "r1", manager_id := none,
                is_active := true, deleted := false },
              { id := "dana", role_id := some "r1", manager_id := none,
                is_active := true, deleted := false }],
    delegations := [{ id := "d1", from_user := "carl", to_user := "rex",
                      start_date := 0, end_date := 100, is_active := true },
                    { id := "d2", from_user := "dana", to_user := "eve",
                      start_date := 0, end_date := 100, is_active := true }],
    matrices := [], requests := [], steps := [] }

-- ─── Concrete fixtures for C6 ────────────────────────────────────────────────

/-- A project-scoped PR rule at step order 2, amounts 0 to 1000. -/
def m1C6 : ApprovalMatrix :=
  { id := "m1", doc_type := "PR", project_id := some "p1", min_amount := some 0,
    max_amount := some 1000, department := none, role_id := some "r1",
    step_order := 2, escalation_hours := none }

/-- A project-scoped PR rule at step order 1, unbounded amounts. -/
def m2C6 : ApprovalMatrix :=
  { id := "m2", doc_type := "PR", project_id := some "p1", min_amount := none,
    max_amount := none, department := none, role_id := some "r2",
    step_order := 1, escalation_hours := none }

/-- A global PR rule at step order 1. -/
def m3C6 : ApprovalMatrix :=
  { id := "m3", doc_type := "PR", project_id := none, min_amount := none,
    max_amount := none, department := none, role_id := some "r3",
    step_order := 1, escalation_hours := none }

def dbC6 : DB :=
  { roles := [], users := [], delegations := [], matrices := [m1C6, m2C6, m3C6],
    requests := [], steps := [] }

-- ─── Concrete fixture for C9 ─────────────────────────────────────────────────

/-- A store with the seeded top-level administrator role (code
"super_admin", as created by prisma/seed_rbac.js), an admin holding it, a
requester, and one in-progress request with a pending step. -/
def dbC9 : DB :=
  { roles := [{ id := "r_super", code := "super_admin", is_active := true }],
    users := [{ id := "alice", role_id := none, manager_id := none,
                is_active := true, deleted := false },
              { id := "sam", role_id := some "r_super", manager_id := none,
                is_active := true, deleted := false }],
    delegations := [], matrices := [],
    requests := [{ id := "req1", doc_type := "PR", doc_id := "D1", project_id := none,
                   requested_by := "alice", current_status := "in_progress",
                   total_steps := 1, current_step := 1, amount := 100,
                   department := none, is_completed := false,
                   completed_at := none, created_at := 0 }],
    steps := [{ id := "st1", approval_request_id := "req1", step_order := 1,
                role_id := none, approver_user := some "bob", status := "pending",
                action := none, remarks := none, approved_at := none,
                escalated := false, escalated_to := none }] }

-- ─── Concrete fixtures for C2 and C8 ─────────────────────────────────────────

/-- The acting approver of the first step. -/
def annC2 : User :=
  { id := "ann", role_id := none, manager_id := none,
    is_active := true, deleted := false }

/-- A two-order request: ann holds the pending step at order 1, cal the
pending step at order 2. -/
def reqC2 : ApprovalRequest :=
  { id := "rq", doc_type := "PR", doc_id := "D", project_id := none,
    requested_by := "bob", current_status := "in_progress",
    total_steps := 2, current_step := 1, amount := 5,
    department := none, is_completed := false,
    completed_at := none, created_at := 0 }

/-- The store before ann approves: both steps pending, request at order 1. -/
def dbC2 : DB :=
  { roles := [], users := [annC2], delegations := [], matrices := [],
    requests := [reqC2],
    steps := [{ id := "s1", approval_request_id := "rq", step_order := 1,
                role_id := none, approver_user := some "ann", status := "pending",
                action := none, remarks := none, approved_at := none,
                escalated := false, escalated_to := none },
              { id := "s2", approval_request_id := "rq", step_order := 2,
                role_id := some "r2", approver_user := some "cal", status := "pending",
                action := none, remarks := none, approved_at := none,
                escalated := false, escalated_to := none }] }

/-- The store after ann approves: her step is approved and the request
advanced to order 2. -/
def dbC2res : DB :=
  { roles := [], users := [annC2], delegations := [], matrices := [],
    requests := [{ reqC2 with current_step := 2 }],
    steps := [{ id := "s1", approval_request_id := "rq", step_order := 1,
                role_id := none, approver_user := some "ann", status := "approved",
                action := some "approve", remarks := none, approved_at := some 10,
                escalated := false, escalated_to := none },
              { id := "s2", approval_request_id := "rq", step_order := 2,
                role_id := some "r2", approver_user := some "cal", status := "pending",
                action := none, remarks := none, approved_at := none,
                escalated := false, escalated_to := none }] }

/-- The outcome of ann's first approve: advanced to order 2. -/
def resC2 : StepActionResult :=
  { approvalRequestId := "rq", currentStatus := "in_progress",
    currentStep := some 2, note := none }

/-- A one-order parallel request where ann has already approved her step
while bob's step at the same order is still pending. -/
def reqC8 : ApprovalRequest :=
  { id := "rq8", doc_type := "PR", doc_id := "D8", project_id := none,
    requested_by := "bob", current_status := "in_progress",
    total_steps := 1, current_step := 1, amount := 5,
    department := none, is_completed := false,
    completed_at := none, created_at := 0 }

/-- The store for the idempotent replay: ann's step at the current order is
already approved, a parallel step is still pending. -/
def dbC8 : DB :=
  { roles := [], users := [annC2], delegations := [], matrices := [],
    requests := [reqC8],
    steps := [{ id := "t1", approval_request_id := "rq8", step_order := 1,
                role_id := none, approver_user := some "ann", status := "approved",
                action := some "approve", remarks := none, approved_at := some 5,
                escalated := false, escalated_to := none },
              { id := "t2", approval_request_id := "rq8", step_order := 1,
                role_id := some "r2", approver_user := some "bev", status := "pending",
                action := none, remarks := none, approved_at := none,
                escalated := false, escalated_to := none }] }

end Erp

-- ─── General lemmas about the list helpers ───────────────────────────────────

namespace Erp

theorem perm_insertSorted (key : α → Int) (a : α) (l : List α) :
    (insertSorted key a l).Perm (a :: l) := by
  induction l with
  | nil => simp [insertSorted]
  | cons b t ih =>
    simp only [insertSorted]
    split
    · exact List.Perm.refl _
    · exact (List.Perm.cons b ih).trans (List.Perm.swap a b t)

theorem mem_insertSorted {key : α → Int} {a x : α} {l : List α} :
    x ∈ insertSorted key a l ↔ x = a ∨ x ∈ l := by
  rw [(perm_insertSorted key a l).mem_iff]
  simp

theorem perm_sortBy (key : α → Int) (l : List α) : (sortBy key l).Perm l := by
  induction l with
  | nil => simp [sortBy]
  | cons a t ih =>
    exact (perm_insertSorted key a (sortBy key t)).trans (List.Perm.cons a ih)

theorem mem_sortBy {key : α → Int} {x : α} {l : List α} :
    x ∈ sortBy key l ↔ x ∈ l :=
  (perm_sortBy key l).mem_iff

theorem length_sortBy (key : α → Int) (l : List α) :
    (sortBy key l).length = l.length :=
  (perm_sortBy key l).length_eq

theorem sorted_insertSorted {key : α → Int} {a : α} {l : List α}
    (h : List.Pairwise (fun x y => key x ≤ key y) l) :
    List.Pairwise (fun x y => key x ≤ key y) (insertSorted key a l) := by
  induction l with
  | nil => simp [insertSorted]
  | cons b t ih =>
    simp only [insertSorted]
    rcases List.pairwise_cons.mp h with ⟨hb, ht⟩
    split
    · rename_i hab
      refine List.pairwise_cons.mpr ⟨?_, h⟩
      intro x hx
      rcases List.mem_cons.mp hx with rfl | hx
      · exact hab
      · exact le_trans hab (hb x hx)
    · rename_i hab
      refine List.pairwise_cons.mpr ⟨?_, ih ht⟩
      intro x hx
      rcases mem_insertSorted.mp hx with rfl | hx
      · exact le_of_lt (lt_of_not_le hab)
      · exact hb x hx

theorem sorted_sortBy (key : α → Int) (l : List α) :
    List.Pairwise (fun x y => key x ≤ key y) (sortBy key l) := by
  induction l with
  | nil => simp [sortBy]
  | cons a t ih => exact sorted_insertSorted ih

theorem mem_dedupKeepFirst {seen l : List Int} {x : Int} :
    x ∈ dedupKeepFirst seen l ↔ x ∈ l ∧ x ∉ seen := by
  induction l generalizing seen with
  | nil => simp [dedupKeepFirst]
  | cons a t ih =>
    simp only [dedupKeepFirst]
    split
    · rename_i hc
      rw [ih]
      simp only [List.mem_cons]
      constructor
      · rintro ⟨hx, hns⟩; exact ⟨Or.inr hx, hns⟩
      · rintro ⟨ha | hx, hns⟩
        · exact absurd (ha ▸ List.elem_iff.mp hc) hns
        · exact ⟨hx, hns⟩
    · rename_i hc
      simp only [List.mem_cons, ih]
      constructor
      · rintro (rfl | ⟨hx, hns⟩)
        · exact ⟨Or.inl rfl, fun hmem => hc (List.elem_iff.mpr hmem)⟩
        · exact ⟨Or.inr hx, fun hmem => hns (Or.inr hmem)⟩
      · rintro ⟨hax, hns⟩
        by_cases hxa : x = a
        · exact Or.inl hxa
        · rcases hax with rfl | hx
          · exact Or.inl rfl
          · refine Or.inr ⟨hx, fun hmem => ?_⟩
            rcases hmem with h1 | h2
            · exact hxa h1
            · exact hns h2

theorem nodup_dedupKeepFirst (seen l : List Int) : (dedupKeepFirst seen l).Nodup := by
  induction l generalizing seen with
  | nil => simp [dedupKeepFirst]
  | cons a t ih =>
    simp only [dedupKeepFirst]
    split
    · exact ih seen
    · refine List.nodup_cons.mpr ⟨?_, ih (a :: seen)⟩
      intro hmem
      exact (mem_dedupKeepFirst.mp hmem).2 (List.mem_cons_self a seen)

theorem minStepOrderOf_eq_none {l : List Int} : minStepOrderOf l = none ↔ l = [] := by
  cases l with
  | nil => simp [minStepOrderOf]
  | cons a t =>
    simp only [minStepOrderOf]
    cases minStepOrderOf t <;> simp

theorem minStepOrderOf_mem {l : List Int} {n : Int} (h : minStepOrderOf l = some n) :
    n ∈ l := by
  induction l generalizing n with
  | nil => simp [minStepOrderOf] at h
  | cons a t ih =>
    simp only [minStepOrderOf] at h
    cases hm : minStepOrderOf t with
    | none => rw [hm] at h; simp at h; simp [h]
    | some b =>
      rw [hm] at h
      simp only [Option.some.injEq] at h
      rcases min_cases a b with ⟨hmin, _⟩ | ⟨hmin, _⟩
      · simp [← h, hmin]
      · right; apply ih; rw [hm, ← h, hmin]

theorem minStepOrderOf_le {l : List Int} {n : Int} (h : minStepOrderOf l = some n) :
    ∀ x ∈ l, n ≤ x := by
  induction l generalizing n with
  | nil => simp
  | cons a t ih =>
    intro x hx
    simp only [minStepOrderOf] at h
    cases hm : minStepOrderOf t with
    | none =>
      rw [hm] at h
      rcases List.mem_cons.mp hx with rfl | hx
      · simp at h; omega
      · exact absurd (minStepOrderOf_eq_none.mp hm ▸ hx) (List.not_mem_nil x)
    | some b =>
      rw [hm] at h
      simp only [Option.some.injEq] at h
      rcases List.mem_cons.mp hx with rfl | hx
      · rw [← h]; exact min_le_left _ _
      · exact le_trans (h ▸ min_le_right _ _) (ih hm x hx)

theorem sortBy_isEmpty_iff {key : α → Int} {l : List α} :
    (sortBy key l).isEmpty = true ↔ l = [] := by
  rw [List.isEmpty_iff]
  constructor
  · intro h
    have hl := length_sortBy key l
    rw [h] at hl
    exact List.length_eq_zero.mp hl.symm
  · intro h
    subst h
    rfl

/-- The Prop-level base filter of the claims agrees with the source's
boolean filter of `findMatrices`. -/
theorem matrixMatchesBase_iff (m : ApprovalMatrix) (docType : String) (amount : Int)
    (department : Option String) :
    matrixMatchesBase m docType amount department ↔
      (m.doc_type == docType && matrixAmountOk m amount && matrixDeptOk m department) = true := by
  unfold matrixMatchesBase amountInRange deptMatches matrixAmountOk matrixDeptOk
  cases m.min_amount <;> cases m.max_amount <;> cases department <;>
    simp [and_assoc]

-- ─── C6 ──────────────────────────────────────────────────────────────────────

/-- C6: `findMatrices(docType, projectId, amount, department)` returns
exactly the rules for the document type whose amount range contains the
amount with inclusive bounds (a null bound unbounded) and whose department
is null or equal to the given department when one is given; project-scoped
rules are returned whenever at least one exists, otherwise the global
(null-project) rules under the same filters; the result is ordered
ascending by step order. -/
theorem findMatrices_spec (db : DB) (docType : String) (projectId : Option String)
    (amount : Int) (department : Option String) :
    List.Pairwise (fun a b => a.step_order ≤ b.step_order)
      (findMatrices db docType projectId amount department) ∧
    ((∃ m0 ∈ db.matrices, matrixMatchesBase m0 docType amount department ∧
        m0.project_id = projectId) →
      ∀ m, m ∈ findMatrices db docType projectId amount department ↔
        m ∈ db.matrices ∧ matrixMatchesBase m docType amount department ∧
          m.project_id = projectId) ∧
    ((∀ m0 ∈ db.matrices, ¬(matrixMatchesBase m0 docType amount department ∧
        m0.project_id = projectId)) →
      ∀ m, m ∈ findMatrices db docType projectId amount department ↔
        m ∈ db.matrices ∧ matrixMatchesBase m docType amount department ∧
          m.project_id = none) := by
  refine ⟨?_, ?_, ?_⟩
  · simp only [findMatrices]
    split
    · exact sorted_sortBy _ _
    · exact sorted_sortBy _ _
  · intro hex m
    simp only [findMatrices]
    split
    · rename_i hEmpty
      exfalso
      rcases hex with ⟨m0, hm0, hP, hproj⟩
      rw [sortBy_isEmpty_iff, List.filter_eq_nil_iff] at hEmpty
      refine hEmpty m0 hm0 ?_
      rw [Bool.and_eq_true]
      exact ⟨(matrixMatchesBase_iff m0 docType amount department).mp hP,
             beq_iff_eq.mpr hproj⟩
    · rw [mem_sortBy, List.mem_filter]
      simp only [Bool.and_eq_true, beq_iff_eq,
        ← matrixMatchesBase_iff m docType amount department]
  · intro hnone m
    simp only [findMatrices]
    split
    · rw [mem_sortBy, List.mem_filter]
      simp only [Bool.and_eq_true, beq_iff_eq,
        ← matrixMatchesBase_iff m docType amount department]
    · rename_i hEmpty
      exfalso
      rcases List.exists_mem_of_ne_nil _ (fun hnil =>
        hEmpty (sortBy_isEmpty_iff.mpr hnil)) with ⟨m0, hm0⟩
      have hm0' := List.mem_filter.mp hm0
      have hb := hm0'.2
      rw [Bool.and_eq_true] at hb
      exact hnone m0 hm0'.1
        ⟨(matrixMatchesBase_iff m0 docType amount department).mpr hb.1,
         beq_iff_eq.mp hb.2⟩

/-- C6 witness: both branches of `findMatrices_spec` applied at concrete
stores. -/
theorem findMatrices_spec_witness :
    (m1C6 ∈ findMatrices dbC6 "PR" (some "p1") 500 none ↔
       m1C6 ∈ dbC6.matrices ∧ matrixMatchesBase m1C6 "PR" 500 none ∧
         m1C6.project_id = some "p1") ∧
    (m3C6 ∈ findMatrices dbC6 "PR" (some "p9") 500 none ↔
       m3C6 ∈ dbC6.matrices ∧ matrixMatchesBase m3C6 "PR" 500 none ∧
         m3C6.project_id = none) :=
  ⟨(findMatrices_spec dbC6 "PR" (some "p1") 500 none).2.1
      ⟨m1C6, by decide, by decide, by decide⟩ m1C6,
   (findMatrices_spec dbC6 "PR" (some "p9") 500 none).2.2 (by decide) m3C6⟩

-- ─── C7 ──────────────────────────────────────────────────────────────────────

theorem resolveApproverGo_none_skipped (db : DB) (requestedBy : String) (now : Int) :
    ∀ l, resolveApproverGo db requestedBy now l = none →
      ∀ c ∈ l, candidateSkipped db requestedBy now c := by
  intro l
  induction l with
  | nil => intro _ c hc; exact absurd hc (List.not_mem_nil c)
  | cons u rest ih =>
    intro h c hc
    simp only [resolveApproverGo] at h
    split at h
    · rename_i hcond
      simp only [Bool.and_eq_true, beq_iff_eq, bne_iff_ne] at hcond
      rcases List.mem_cons.mp hc with rfl | hc
      · exact Or.inl hcond
      · exact ih h c hc
    · split at h
      · rename_i d hdel
        split at h
        · exact absurd h (by simp)
        · rename_i hto
          have hto' : d.to_user = requestedBy := by
            simpa [bne_iff_ne] using hto
          rcases List.mem_cons.mp hc with rfl | hc
          · exact Or.inr ⟨d, hdel, hto'⟩
          · exact ih h c hc
      · exact absurd h (by simp)

theorem resolveApproverGo_some_first (db : DB) (requestedBy : String) (now : Int) :
    ∀ l res, resolveApproverGo db requestedBy now l = some res →
      ∃ pre c post, l = pre ++ c :: post ∧
        (∀ x ∈ pre, candidateSkipped db requestedBy now x) ∧
        candidateResolvesTo db requestedBy now c res := by
  intro l
  induction l with
  | nil => intro res h; simp [resolveApproverGo] at h
  | cons u rest ih =>
    intro res h
    simp only [resolveApproverGo] at h
    split at h
    · rename_i hcond
      simp only [Bool.and_eq_true, beq_iff_eq, bne_iff_ne] at hcond
      rcases ih res h with ⟨pre, c, post, heq, hpre, hres⟩
      refine ⟨u :: pre, c, post, by simp [heq], ?_, hres⟩
      intro x hx
      rcases List.mem_cons.mp hx with rfl | hx
      · exact Or.inl hcond
      · exact hpre x hx
    · rename_i hcond
      have hnotskip : u.id ≠ requestedBy ∨ roleCodeOf db u.role_id = some "super_admin" := by
        by_contra hcontra
        push_neg at hcontra
        refine hcond ?_
        simp only [Bool.and_eq_true, beq_iff_eq, bne_iff_ne]
        exact ⟨hcontra.1, hcontra.2⟩
      split at h
      · rename_i d hdel
        split at h
        · rename_i hto
          refine ⟨[], u, rest, rfl, by simp, hnotskip, Or.inl ⟨d, hdel, ?_, ?_⟩⟩
          · exact bne_iff_ne.mp hto
          · exact (Option.some.inj h).symm
        · rename_i hto
          have hto' : d.to_user = requestedBy := by
            simpa [bne_iff_ne] using hto
          rcases ih res h with ⟨pre, c, post, heq, hpre, hres⟩
          refine ⟨u :: pre, c, post, by simp [heq], ?_, hres⟩
          intro x hx
          rcases List.mem_cons.mp hx with rfl | hx
          · exact Or.inr ⟨d, hdel, hto'⟩
          · exact hpre x hx
      · rename_i hdel
        exact ⟨[], u, rest, rfl, by simp, hnotskip,
               Or.inr ⟨hdel, (Option.some.inj h).symm⟩⟩

/-- C7: `resolveApprover(role, requesterId)` returns `none` for a null role;
when it returns `none` over a role every active non-deleted holder was
passed over for a claim-listed reason (the candidate is the requester and
not a super_admin, or the candidate's active delegation points back at the
requester); and when it returns a result, that result comes from the first
candidate, in the stable store order, that is not passed over — redirected
to the candidate's delegate (marked as a delegation redirect) when an
active delegation exists whose delegate is not the requester, and to the
candidate itself otherwise.  `none` is not an error: the step is later
resolved dynamically by role match. -/
theorem resolveApprover_spec (db : DB) (requestedBy : String) (now : Int) (rid : String) :
    resolveApprover db none requestedBy now = none ∧
    (resolveApprover db (some rid) requestedBy now = none →
      ∀ c ∈ findUsersByRole db rid, candidateSkipped db requestedBy now c) ∧
    (∀ res, resolveApprover db (some rid) requestedBy now = some res →
      ∃ pre c post, findUsersByRole db rid = pre ++ c :: post ∧
        (∀ x ∈ pre, candidateSkipped db requestedBy now x) ∧
        candidateResolvesTo db requestedBy now c res) := by
  refine ⟨rfl, ?_, ?_⟩
  · intro h
    exact resolveApproverGo_none_skipped db requestedBy now _ h
  · intro res h
    exact resolveApproverGo_some_first db requestedBy now _ res h

/-- C7 witness: in `dbC7` the resolver passes over carl (delegation back to
the requester rex) and resolves dana's delegation to eve as a redirect. -/
theorem resolveApprover_spec_witness :
    resolveApprover dbC7 none "rex" 50 = none ∧
    (∃ pre c post, findUsersByRole dbC7 "r1" = pre ++ c :: post ∧
      (∀ x ∈ pre, candidateSkipped dbC7 "rex" 50 x) ∧
      candidateResolvesTo dbC7 "rex" 50 c { userId := "eve", delegated := true }) :=
  ⟨(resolveApprover_spec dbC7 "rex" 50 "r1").1,
   (resolveApprover_spec dbC7 "rex" 50 "r1").2.2
     { userId := "eve", delegated := true } (by decide)⟩

-- ─── C1 ──────────────────────────────────────────────────────────────────────

theorem headD_sortBy_id_min (l : List Int) (hne : l ≠ []) :
    (sortBy (fun o => o) l).headD 0 ∈ l ∧
    ∀ x ∈ l, (sortBy (fun o => o) l).headD 0 ≤ x := by
  cases hs : sortBy (fun o => o) l with
  | nil =>
    exfalso
    have hp := perm_sortBy (fun o => o) l
    rw [hs] at hp
    exact hne (List.Perm.eq_nil hp.symm)
  | cons a t =>
    have hmem : a ∈ l := by
      rw [← @mem_sortBy Int (fun o => o) a l, hs]
      exact List.mem_cons_self a t
    refine ⟨by simpa using hmem, ?_⟩
    intro x hx
    have hx' : x ∈ a :: t := by
      rw [← hs]
      exact mem_sortBy.mpr hx
    have hsorted := sorted_sortBy (fun o => o) l
    rw [hs] at hsorted
    rcases List.mem_cons.mp hx' with rfl | hx'
    · simp
    · simpa using (List.pairwise_cons.mp hsorted).1 x hx'

theorem get_enum_map {α β : Type} (l : List α) (f : Nat × α → β) (i : Nat)
    (hi : i < (l.enum.map f).length) (hj : i < l.length) :
    (l.enum.map f).get ⟨i, hi⟩ = f (i, l.get ⟨i, hj⟩) := by
  simp [List.get_eq_getElem, List.getElem_map, List.getElem_enum]

/-- C1: `requestApproval` rejects with 409 when an active in-progress
request exists for the same (docType, docId); rejects with 422, creating
nothing, when no matrix rule matches; and otherwise inserts — in one
transaction — a request with status in_progress, `current_step` the
smallest step order of the matched rules, `total_steps` the number of
distinct step orders, and one pending step per matched rule (with the
rule's order and role, and the resolved approver). -/
theorem requestApproval_spec (db : DB) (docType docId : String) (projectId : Option String)
    (amount : Int) (department : Option String) (actorId : String) (now : Int) (rid : String) :
    ((∃ r ∈ db.requests, r.doc_type = docType ∧ r.doc_id = docId ∧
        r.current_status = "in_progress") →
      ∃ e, requestApproval db docType docId projectId amount department actorId now rid =
        .error e ∧ e.statusCode = 409) ∧
    (findActiveRequest db docType docId = none →
      findMatrices db docType projectId amount department = [] →
      ∃ e, requestApproval db docType docId projectId amount department actorId now rid =
        .error e ∧ e.statusCode = 422) ∧
    (findActiveRequest db docType docId = none →
      ∀ m ms, findMatrices db docType projectId amount department = m :: ms →
      ∃ db' res req newSteps,
        requestApproval db docType docId projectId amount department actorId now rid =
          .ok (db', res) ∧
        db'.requests = db.requests ++ [req] ∧
        req.id = rid ∧ req.current_status = "in_progress" ∧
        req.current_step ∈ (m :: ms).map (fun x => x.step_order) ∧
        (∀ o ∈ (m :: ms).map (fun x => x.step_order), req.current_step ≤ o) ∧
        req.total_steps = ((m :: ms).map (fun x => x.step_order)).toFinset.card ∧
        res = { approvalRequestId := rid, currentStatus := "in_progress",
                totalSteps := req.total_steps, currentStep := req.current_step } ∧
        db'.steps = db.steps ++ newSteps ∧
        newSteps.length = (m :: ms).length ∧
        (∀ i (hi : i < newSteps.length) (hj : i < (m :: ms).length),
          (newSteps.get ⟨i, hi⟩).status = "pending" ∧
          (newSteps.get ⟨i, hi⟩).approval_request_id = rid ∧
          (newSteps.get ⟨i, hi⟩).step_order = ((m :: ms).get ⟨i, hj⟩).step_order ∧
          (newSteps.get ⟨i, hi⟩).role_id = ((m :: ms).get ⟨i, hj⟩).role_id ∧
          (newSteps.get ⟨i, hi⟩).approver_user =
            (resolveApprover db ((m :: ms).get ⟨i, hj⟩).role_id actorId now).map
              (fun r => r.userId))) := by
  refine ⟨?_, ?_, ?_⟩
  · rintro ⟨r0, hr0, hdt, hdi, hst⟩
    have hsome : (findActiveRequest db docType docId).isSome = true := by
      rw [findActiveRequest, List.find?_isSome]
      exact ⟨r0, hr0, by simp [hdt, hdi, hst]⟩
    obtain ⟨ra, hra⟩ := Option.isSome_iff_exists.mp hsome
    refine ⟨⟨"An active approval request already exists for this document (status: "
            ++ ra.current_status ++ ")", 409⟩, ?_, rfl⟩
    unfold requestApproval
    rw [hra]
  · intro hact hmat
    refine ⟨⟨"No approval matrix configured for this docType, project and amount. Contact the ERP administrator.", 422⟩, ?_, rfl⟩
    unfold requestApproval
    rw [hact]
    dsimp only
    rw [hmat]
    rfl
  · intro hact m ms hmat
    have horders : (m :: ms).map (fun x => x.step_order) ≠ [] := by simp
    have hdne : dedupKeepFirst [] ((m :: ms).map (fun x => x.step_order)) ≠ [] := by
      intro hnil
      have : m.step_order ∈ dedupKeepFirst [] ((m :: ms).map (fun x => x.step_order)) :=
        mem_dedupKeepFirst.mpr ⟨by simp, by simp⟩
      rw [hnil] at this
      exact List.not_mem_nil _ this
    obtain ⟨hfmem, hfmin⟩ := headD_sortBy_id_min
      (dedupKeepFirst [] ((m :: ms).map (fun x => x.step_order))) hdne
    refine ⟨{ db with
        requests := db.requests ++
          [{ id := rid, doc_type := docType, doc_id := docId,
             project_id := projectId, requested_by := actorId,
             current_status := "in_progress",
             total_steps := (sortBy (fun o => o)
               (dedupKeepFirst [] ((m :: ms).map (fun x => x.step_order)))).length,
             current_step := (sortBy (fun o => o)
               (dedupKeepFirst [] ((m :: ms).map (fun x => x.step_order)))).headD 0,
             amount := amount, department := department, is_completed := false,
             completed_at := none, created_at := now }],
        steps := db.steps ++ (m :: ms).enum.map (fun p =>
          ({ id := rid ++ "#" ++ toString p.1,
             approval_request_id := rid,
             step_order := p.2.step_order, role_id := p.2.role_id,
             approver_user := (resolveApprover db p.2.role_id actorId now).map
               (fun r => r.userId),
             status := "pending", action := none, remarks := none,
             approved_at := none, escalated := false,
             escalated_to := none } : ApprovalStep)) },
      { approvalRequestId := rid, currentStatus := "in_progress",
        totalSteps := (sortBy (fun o => o)
          (dedupKeepFirst [] ((m :: ms).map (fun x => x.step_order)))).length,
        currentStep := (sortBy (fun o => o)
          (dedupKeepFirst [] ((m :: ms).map (fun x => x.step_order)))).headD 0 },
      { id := rid, doc_type := docType, doc_id := docId,
        project_id := projectId, requested_by := actorId,
        current_status := "in_progress",
        total_steps := (sortBy (fun o => o)
          (dedupKeepFirst [] ((m :: ms).map (fun x => x.step_order)))).length,
        current_step := (sortBy (fun o => o)
          (dedupKeepFirst [] ((m :: ms).map (fun x => x.step_order)))).headD 0,
        amount := amount, department := department, is_completed := false,
        completed_at := none, created_at := now },
      (m :: ms).enum.map (fun p =>
        ({ id := rid ++ "#" ++ toString p.1,
           approval_request_id := rid,
           step_order := p.2.step_order, role_id := p.2.role_id,
           approver_user := (resolveApprover db p.2.role_id actorId now).map
             (fun r => r.userId),
           status := "pending", action := none, remarks := none,
           approved_at := none, escalated := false,
           escalated_to := none } : ApprovalStep)),
      ?_, rfl, rfl, rfl, ?_, ?_, ?_, rfl, rfl, ?_, ?_⟩
    · unfold requestApproval
      rw [hact]
      dsimp only
      rw [hmat]
      rfl
    · exact (mem_dedupKeepFirst.mp (hfmem)).1
    · intro o ho
      exact hfmin o (mem_dedupKeepFirst.mpr ⟨ho, by simp⟩)
    · have hts : (dedupKeepFirst [] ((m :: ms).map (fun x => x.step_order))).toFinset =
          ((m :: ms).map (fun x => x.step_order)).toFinset := by
        ext x
        simp [List.mem_toFinset, mem_dedupKeepFirst]
      rw [length_sortBy, ← List.toFinset_card_of_nodup (nodup_dedupKeepFirst [] _), hts]
    · simp
    · intro i hi hj
      simp [List.get_eq_getElem, List.getElem_map, List.getElem_enum]

/-- C1 witness: all three branches of `requestApproval_spec` at concrete
stores — duplicate active request (409), no matching rule (422), and a
successful creation from one matched rule. -/
theorem requestApproval_spec_witness :
    (∃ e, requestApproval dbC1a "PR" "D1" none 5 none "ray" 0 "rq" =
       .error e ∧ e.statusCode = 409) ∧
    (∃ e, requestApproval dbC1b "PR" "D1" none 5 none "ray" 0 "rq" =
       .error e ∧ e.statusCode = 422) ∧
    (∃ db' res req newSteps,
      requestApproval dbC1c "PR" "D1" none 5 none "ray" 0 "rq" = .ok (db', res) ∧
      db'.requests = dbC1c.requests ++ [req] ∧
      req.id = "rq" ∧ req.current_status = "in_progress" ∧
      req.current_step ∈ [mC1].map (fun x => x.step_order) ∧
      (∀ o ∈ [mC1].map (fun x => x.step_order), req.current_step ≤ o) ∧
      req.total_steps = ([mC1].map (fun x => x.step_order)).toFinset.card ∧
      res = { approvalRequestId := "rq", currentStatus := "in_progress",
              totalSteps := req.total_steps, currentStep := req.current_step } ∧
      db'.steps = dbC1c.steps ++ newSteps ∧
      newSteps.length = [mC1].length ∧
      (∀ i (hi : i < newSteps.length) (hj : i < [mC1].length),
        (newSteps.get ⟨i, hi⟩).status = "pending" ∧
        (newSteps.get ⟨i, hi⟩).approval_request_id = "rq" ∧
        (newSteps.get ⟨i, hi⟩).step_order = ([mC1].get ⟨i, hj⟩).step_order ∧
        (newSteps.get ⟨i, hi⟩).role_id = ([mC1].get ⟨i, hj⟩).role_id ∧
        (newSteps.get ⟨i, hi⟩).approver_user =
          (resolveApprover dbC1c ([mC1].get ⟨i, hj⟩).role_id "ray" 0).map
            (fun r => r.userId))) :=
  ⟨(requestApproval_spec dbC1a "PR" "D1" none 5 none "ray" 0 "rq").1 (by decide),
   (requestApproval_spec dbC1b "PR" "D1" none 5 none "ray" 0 "rq").2.1
     (by decide) (by decide),
   (requestApproval_spec dbC1c "PR" "D1" none 5 none "ray" 0 "rq").2.2
     (by decide) mC1 [] (by decide)⟩

-- ─── C2 ──────────────────────────────────────────────────────────────────────

theorem actable_order_pending {db : DB} {request : ApprovalRequest} {actor : User}
    {now : Int} {s : ApprovalStep}
    (h : actableForApprove db request actor now s = true) :
    s.step_order = request.current_step ∧ s.status = "pending" := by
  unfold actableForApprove at h
  rw [Bool.and_eq_true, Bool.and_eq_true] at h
  exact ⟨beq_iff_eq.mp h.1.1, beq_iff_eq.mp h.1.2⟩

theorem mem_stepsOf {db : DB} {rid : String} {s : ApprovalStep} :
    s ∈ stepsOf db rid ↔ s ∈ db.steps ∧ s.approval_request_id = rid := by
  unfold stepsOf
  rw [mem_sortBy, List.mem_filter]
  simp [beq_iff_eq]

/-- `find?` by id over a table mapped by an id-preserving update. -/
theorem find?_req_map (l : List ApprovalRequest) (rid : String)
    (g : ApprovalRequest → ApprovalRequest) (hid : ∀ r, (g r).id = r.id) :
    (l.map g).find? (fun r => r.id == rid) =
      (l.find? (fun r => r.id == rid)).map g := by
  rw [List.find?_map]
  have hp : ((fun r => r.id == rid) ∘ g) = (fun (r : ApprovalRequest) => r.id == rid) := by
    funext r
    simp [Function.comp, hid r]
  rw [hp]

theorem any_id_mem {l sub : List ApprovalStep} {s : ApprovalStep}
    (hnodup : (l.map (fun x => x.id)).Nodup) (hsubmem : ∀ x ∈ sub, x ∈ l)
    (hs : s ∈ l) :
    (sub.any (fun a => a.id == s.id)) = true ↔ s ∈ sub := by
  rw [List.any_eq_true]
  constructor
  · rintro ⟨a, ha, hbeq⟩
    have heq : a = s :=
      List.inj_on_of_nodup_map hnodup (hsubmem a ha) hs (beq_iff_eq.mp hbeq)
    rw [← heq]
    exact ha
  · intro hss
    exact ⟨s, hss, beq_iff_eq.mpr rfl⟩

/-- Case analysis of a successful non-idempotent `approveStep`: the request
was in progress, some step was actable, and the transaction either waited
(parallel group incomplete), advanced to `findNextStepOrder`, or completed
the request as approved. -/
theorem approveStep_ok_inversion {db db' : DB} {rid actorId : String}
    {remarks : Option String} {now : Int} {res : StepActionResult}
    {actor : User} {request : ApprovalRequest}
    (hactor : findUserById db actorId = some actor)
    (hreq : findRequestById db rid = some request)
    (hok : approveStep db rid actorId remarks now = Except.ok (db', res))
    (hnote : res.note = none) :
    request.current_status = "in_progress" ∧
    approveActable db rid request actor now ≠ [] ∧
    ((approveStillPending db rid request actor now ≠ [] ∧
      db' = approveDb1 db rid actorId remarks now request actor ∧
      res = { approvalRequestId := rid, currentStatus := request.current_status,
              currentStep := some request.current_step, note := none }) ∨
     (approveStillPending db rid request actor now = [] ∧
      ((∃ n, findNextStepOrder db rid request.current_step = some n ∧
         db' = { approveDb1 db rid actorId remarks now request actor with
                 requests := db.requests.map (fun r =>
                   if r.id == rid then { r with current_step := n } else r) } ∧
         res = { approvalRequestId := rid, currentStatus := request.current_status,
                 currentStep := some n, note := none }) ∨
       (findNextStepOrder db rid request.current_step = none ∧
         db' = { approveDb1 db rid actorId remarks now request actor with
                 requests := db.requests.map (fun r =>
                   if r.id == rid then
                     { r with
                       current_status := "approved", is_completed := true,
                       completed_at := some now }
                   else r) } ∧
         res = { approvalRequestId := rid, currentStatus := "approved",
                 currentStep := none, note := none })))) := by
  unfold approveStep at hok
  rw [hactor, hreq] at hok
  dsimp only at hok
  have hin : request.current_status = "in_progress" := by
    by_contra hc
    rw [if_pos (bne_iff_ne.mpr hc)] at hok
    exact Except.noConfusion hok
  rw [if_neg (by simp [hin])] at hok
  refine ⟨hin, ?_⟩
  by_cases hself : (request.requested_by == actorId &&
      !isAdminCode (roleCodeOf db actor.role_id)) = true
  · rw [if_pos hself] at hok
    exact Except.noConfusion hok
  · rw [if_neg hself] at hok
    by_cases hemp : ((stepsOf db rid).filter (actableForApprove db request actor now)).isEmpty = true
    · rw [if_pos hemp] at hok
      cases hfd : (stepsOf db rid).find? (fun s =>
          s.step_order == request.current_step &&
          (s.approver_user == some actorId || s.role_id == actor.role_id) &&
          s.status == "approved") with
      | none =>
        rw [hfd] at hok
        exact Except.noConfusion hok
      | some w =>
        rw [hfd] at hok
        simp only [Except.ok.injEq, Prod.mk.injEq] at hok
        rw [← hok.2] at hnote
        simp at hnote
    · rw [if_neg hemp] at hok
      have hane : approveActable db rid request actor now ≠ [] := by
        intro hnil
        exact hemp (by
          unfold approveActable at hnil
          rw [hnil]
          rfl)
      refine ⟨hane, ?_⟩
      by_cases hsp : (((stepsOf db rid).filter (fun s => s.step_order == request.current_step)).filter
          (fun s => !(((stepsOf db rid).filter (actableForApprove db request actor now)).any
            (fun a => a.id == s.id)) && s.status == "pending")).isEmpty = true
      · rw [if_neg (by rw [hsp]; decide)] at hok
        right
        refine ⟨by
          unfold approveStillPending approveActable
          exact List.isEmpty_iff.mp hsp, ?_⟩
        cases hnx : findNextStepOrder db rid request.current_step with
        | some n =>
          rw [hnx] at hok
          simp only [Except.ok.injEq, Prod.mk.injEq] at hok
          left
          exact ⟨n, rfl, hok.1.symm, hok.2.symm⟩
        | none =>
          rw [hnx] at hok
          simp only [Except.ok.injEq, Prod.mk.injEq] at hok
          right
          exact ⟨rfl, hok.1.symm, hok.2.symm⟩
      · have hsp' : (((stepsOf db rid).filter (fun s => s.step_order == request.current_step)).filter
            (fun s => !(((stepsOf db rid).filter (actableForApprove db request actor now)).any
              (fun a => a.id == s.id)) && s.status == "pending")).isEmpty = false := by
          simpa using hsp
        rw [if_pos (by rw [hsp']; decide)] at hok
        simp only [Except.ok.injEq, Prod.mk.injEq] at hok
        left
        refine ⟨?_, hok.1.symm, hok.2.symm⟩
        intro hc
        refine hsp ?_
        rw [List.isEmpty_iff]
        unfold approveStillPending approveActable at hc
        exact hc

theorem any_congr_list {l : List α} {p q : α → Bool}
    (h : ∀ a ∈ l, p a = q a) : l.any p = l.any q := by
  induction l with
  | nil => rfl
  | cons a t ih =>
    simp only [List.any_cons]
    rw [h a (List.mem_cons_self a t), ih (fun x hx => h x (List.mem_cons_of_mem a hx))]

theorem approveActable_mem {db : DB} {rid : String} {request : ApprovalRequest}
    {actor : User} {now : Int} {a : ApprovalStep}
    (ha : a ∈ approveActable db rid request actor now) :
    a ∈ db.steps ∧ a.approval_request_id = rid ∧
      a.step_order = request.current_step ∧ a.status = "pending" := by
  unfold approveActable at ha
  obtain ⟨hmem, hprop⟩ := List.mem_filter.mp ha
  obtain ⟨hdb, hrid⟩ := mem_stepsOf.mp hmem
  exact ⟨hdb, hrid, (actable_order_pending hprop).1, (actable_order_pending hprop).2⟩

/-- The approve transaction only touches steps of the current parallel
group, so pending-ness at any other order is unchanged. -/
theorem hasPendingAt_db1_of_ne {db : DB} {rid : String} {request : ApprovalRequest}
    {actor : User} {actorId : String} {remarks : Option String} {now : Int} {o : Int}
    (hall : (db.steps.map (fun s => s.id)).Nodup)
    (ho : o ≠ request.current_step) :
    hasPendingAt (approveDb1 db rid actorId remarks now request actor) rid o =
      hasPendingAt db rid o := by
  unfold hasPendingAt approveDb1
  dsimp only
  rw [List.any_map]
  refine any_congr_list ?_
  intro s hs
  simp only [Function.comp]
  by_cases hm : ((approveActable db rid request actor now).any (fun a => a.id == s.id)) = true
  · obtain ⟨a, ha, hbeq⟩ := List.any_eq_true.mp hm
    obtain ⟨haDb, _, horderA, _⟩ := approveActable_mem ha
    have heq : a = s := List.inj_on_of_nodup_map hall haDb hs (beq_iff_eq.mp hbeq)
    have horder : s.step_order = request.current_step := heq ▸ horderA
    unfold approveMark
    rw [if_pos hm]
    simp [horder, Ne.symm ho]
  · unfold approveMark
    rw [if_neg hm]

/-- After the approve transaction some step of the current parallel group
is still pending exactly when the group was not exhausted by the marked
steps. -/
theorem hasPendingAt_db1_cur {db : DB} {rid : String} {request : ApprovalRequest}
    {actor : User} {actorId : String} {remarks : Option String} {now : Int} :
    (hasPendingAt (approveDb1 db rid actorId remarks now request actor) rid
      request.current_step = true) ↔
    approveStillPending db rid request actor now ≠ [] := by
  unfold hasPendingAt approveDb1
  dsimp only
  rw [List.any_map]
  constructor
  · intro h
    obtain ⟨s, hs, hp⟩ := List.any_eq_true.mp h
    simp only [Function.comp] at hp
    by_cases hm : ((approveActable db rid request actor now).any (fun a => a.id == s.id)) = true
    · exfalso
      unfold approveMark at hp
      rw [if_pos hm] at hp
      simp at hp
    · unfold approveMark at hp
      rw [if_neg hm] at hp
      simp only [Bool.and_eq_true] at hp
      obtain ⟨⟨hprid, hporder⟩, hpst⟩ := hp
      refine List.ne_nil_of_mem
        (show s ∈ approveStillPending db rid request actor now from ?_)
      unfold approveStillPending
      refine List.mem_filter.mpr ⟨List.mem_filter.mpr ⟨?_, hporder⟩, ?_⟩
      · exact mem_stepsOf.mpr ⟨hs, beq_iff_eq.mp hprid⟩
      · rw [Bool.and_eq_true]
        refine ⟨?_, hpst⟩
        rw [Bool.not_eq_true']
        exact Bool.eq_false_iff.mpr hm
  · intro hne
    obtain ⟨s, hmem⟩ := List.exists_mem_of_ne_nil _ hne
    unfold approveStillPending at hmem
    obtain ⟨hmem1, hcond⟩ := List.mem_filter.mp hmem
    obtain ⟨hmemS, horder⟩ := List.mem_filter.mp hmem1
    obtain ⟨hdb, hrid⟩ := mem_stepsOf.mp hmemS
    rw [Bool.and_eq_true] at hcond
    have hany : ((approveActable db rid request actor now).any (fun a => a.id == s.id)) = false := by
      have h := hcond.1
      rwa [Bool.not_eq_true'] at h
    rw [List.any_eq_true]
    refine ⟨s, hdb, ?_⟩
    simp only [Function.comp]
    unfold approveMark
    rw [if_neg (by rw [hany]; decide)]
    simp [hrid, horder, hcond.2]

/-- `findNextStepOrder` is exhausted exactly when no strictly later order
still has a pending step. -/
theorem findNextStepOrder_none_iff {db : DB} {rid : String} {cur : Int} :
    findNextStepOrder db rid cur = none ↔
      ∀ o, cur < o → hasPendingAt db rid o = false := by
  unfold findNextStepOrder hasPendingAt
  rw [minStepOrderOf_eq_none, List.map_eq_nil, List.filter_eq_nil]
  constructor
  · intro h o hlt
    rw [List.any_eq_false]
    intro s hs hp
    simp only [Bool.and_eq_true, beq_iff_eq] at hp
    obtain ⟨⟨hp1, hp2⟩, hp3⟩ := hp
    refine h s hs ?_
    simp only [Bool.and_eq_true, beq_iff_eq, decide_eq_true_eq]
    exact ⟨⟨hp1, by rw [hp2]; exact hlt⟩, hp3⟩
  · intro h s hs hp
    simp only [Bool.and_eq_true, beq_iff_eq, decide_eq_true_eq] at hp
    obtain ⟨⟨hp1, hp2⟩, hp3⟩ := hp
    have hfalse := h s.step_order hp2
    rw [List.any_eq_false] at hfalse
    refine hfalse s hs ?_
    simp [hp1, hp3]

/-- A successful `findNextStepOrder` names a strictly later order with a
pending step, and the smallest such. -/
theorem findNextStepOrder_some {db : DB} {rid : String} {cur n : Int}
    (h : findNextStepOrder db rid cur = some n) :
    cur < n ∧ hasPendingAt db rid n = true ∧
      ∀ o, cur < o → o < n → hasPendingAt db rid o = false := by
  unfold findNextStepOrder at h
  have hmem := minStepOrderOf_mem h
  obtain ⟨s, hsf, hsn⟩ := List.mem_map.mp hmem
  obtain ⟨hsdb, hsp⟩ := List.mem_filter.mp hsf
  simp only [Bool.and_eq_true, beq_iff_eq, decide_eq_true_eq] at hsp
  obtain ⟨⟨h1, h2⟩, h3⟩ := hsp
  refine ⟨hsn ▸ h2, ?_, ?_⟩
  · unfold hasPendingAt
    rw [List.any_eq_true]
    exact ⟨s, hsdb, by simp [h1, h3, hsn]⟩
  · intro o ho1 ho2
    unfold hasPendingAt
    rw [List.any_eq_false]
    intro t ht hp
    simp only [Bool.and_eq_true, beq_iff_eq] at hp
    have htf : t.step_order ∈ ((db.steps.filter (fun s =>
        s.approval_request_id == rid &&
        decide (cur < s.step_order) &&
        s.status == "pending")).map (fun s => s.step_order)) := by
      refine List.mem_map_of_mem _ (List.mem_filter.mpr ⟨ht, ?_⟩)
      simp only [Bool.and_eq_true, beq_iff_eq, decide_eq_true_eq]
      exact ⟨⟨hp.1.1, by rw [hp.1.2]; exact ho1⟩, hp.2⟩
    have hle := minStepOrderOf_le h t.step_order htf
    have heqo := hp.1.2
    omega

/-- C2: for every successful approve transition on an in-progress request
(step ids being unique keys), the updated request row follows the
parallel-group state machine: if some step at the old current order is
still pending afterwards, `current_step` and the status are unchanged
(parallel wait); otherwise the request advances to the smallest strictly
greater order that still has a pending step, or, when no such order
exists, becomes approved and completed with a completion timestamp; the
request never advances past an order that still has a pending step, and
`current_step` never decreases. -/
theorem approveStep_state_machine {db db' : DB} {rid actorId : String}
    {remarks : Option String} {now : Int} {res : StepActionResult}
    {actor : User} {request : ApprovalRequest}
    (hall : (db.steps.map (fun s => s.id)).Nodup)
    (hactor : findUserById db actorId = some actor)
    (hreq : findRequestById db rid = some request)
    (hok : approveStep db rid actorId remarks now = Except.ok (db', res))
    (hnote : res.note = none) :
    request.current_status = "in_progress" ∧
    ∃ request', findRequestById db' rid = some request' ∧
      request.current_step ≤ request'.current_step ∧
      (∀ o, request.current_step ≤ o → o < request'.current_step →
        hasPendingAt db' rid o = false) ∧
      (hasPendingAt db' rid request.current_step = true →
        request'.current_step = request.current_step ∧
        request'.current_status = request.current_status) ∧
      (hasPendingAt db' rid request.current_step = false →
        ((request.current_step < request'.current_step ∧
          hasPendingAt db' rid request'.current_step = true ∧
          request'.current_status = request.current_status) ∨
         ((∀ o, request.current_step < o → hasPendingAt db' rid o = false) ∧
          request'.current_step = request.current_step ∧
          request'.current_status = "approved" ∧
          request'.is_completed = true ∧
          request'.completed_at = some now))) := by
  obtain ⟨hin, hane, hcases⟩ := approveStep_ok_inversion hactor hreq hok hnote
  refine ⟨hin, ?_⟩
  have hreqF : db.requests.find? (fun r => r.id == rid) = some request := hreq
  have hrid : (request.id == rid) = true := by
    have h := List.find?_some hreqF
    simpa using h
  rcases hcases with ⟨hspne, hdb, hres⟩ | ⟨hspe, hrest⟩
  · refine ⟨request, ?_, le_refl _, ?_, ?_, ?_⟩
    · rw [hdb]
      exact hreq
    · intro o h1 h2
      exact absurd (lt_of_le_of_lt h1 h2) (lt_irrefl _)
    · intro _
      exact ⟨rfl, rfl⟩
    · intro hfalse
      exfalso
      have htrue : hasPendingAt db' rid request.current_step = true := by
        rw [hdb]
        exact hasPendingAt_db1_cur.mpr hspne
      rw [htrue] at hfalse
      exact Bool.noConfusion hfalse
  · rcases hrest with ⟨n, hnx, hdb, hres⟩ | ⟨hnx, hdb, hres⟩
    · obtain ⟨hlt, hpendN, hmin⟩ := findNextStepOrder_some hnx
      have hPA : ∀ o, hasPendingAt db' rid o =
          hasPendingAt (approveDb1 db rid actorId remarks now request actor) rid o := by
        intro o
        rw [hdb]
        rfl
      have hcurFalse : hasPendingAt db' rid request.current_step = false := by
        rw [hPA]
        cases hb : hasPendingAt (approveDb1 db rid actorId remarks now request actor)
            rid request.current_step with
        | false => rfl
        | true => exact absurd hspe (hasPendingAt_db1_cur.mp hb)
      refine ⟨{ request with current_step := n }, ?_, ?_, ?_, ?_, ?_⟩
      · rw [hdb]
        show (db.requests.map (fun r =>
            if r.id == rid then { r with current_step := n } else r)).find?
            (fun r => r.id == rid) =
          some { request with current_step := n }
        rw [find?_req_map db.requests rid _ (by
          intro r
          split
          · rfl
          · rfl), hreqF]
        rw [Option.map_some']
        rw [if_pos hrid]
      · exact le_of_lt hlt
      · intro o h1 h2
        have h2' : o < n := h2
        rw [hPA]
        by_cases ho : o = request.current_step
        · rw [ho]
          rw [hPA] at hcurFalse
          exact hcurFalse
        · have hlt2 : request.current_step < o := lt_of_le_of_ne h1 (Ne.symm ho)
          rw [hasPendingAt_db1_of_ne hall ho]
          exact hmin o hlt2 h2'
      · intro htrue
        exfalso
        rw [htrue] at hcurFalse
        exact Bool.noConfusion hcurFalse
      · intro _
        left
        refine ⟨hlt, ?_, rfl⟩
        rw [show ({ request with current_step := n } : ApprovalRequest).current_step = n
          from rfl]
        rw [hPA]
        rw [hasPendingAt_db1_of_ne hall hlt.ne']
        exact hpendN
    · have hAbove := findNextStepOrder_none_iff.mp hnx
      have hPA : ∀ o, hasPendingAt db' rid o =
          hasPendingAt (approveDb1 db rid actorId remarks now request actor) rid o := by
        intro o
        rw [hdb]
        rfl
      have hcurFalse : hasPendingAt db' rid request.current_step = false := by
        rw [hPA]
        cases hb : hasPendingAt (approveDb1 db rid actorId remarks now request actor)
            rid request.current_step with
        | false => rfl
        | true => exact absurd hspe (hasPendingAt_db1_cur.mp hb)
      refine ⟨{ request with
                  current_status := "approved"
                  is_completed := true
                  completed_at := some now }, ?_, le_refl _, ?_, ?_, ?_⟩
      · rw [hdb]
        show (db.requests.map (fun r =>
            if r.id == rid then
              { r with current_status := "approved", is_completed := true,
                       completed_at := some now }
            else r)).find? (fun r => r.id == rid) =
          some { request with
                   current_status := "approved"
                   is_completed := true
                   completed_at := some now }
        rw [find?_req_map db.requests rid _ (by
          intro r
          split
          · rfl
          · rfl), hreqF]
        rw [Option.map_some']
        rw [if_pos hrid]
      · intro o h1 h2
        have h2' : o < request.current_step := h2
        exact absurd (lt_of_le_of_lt h1 h2') (lt_irrefl _)
      · intro htrue
        exfalso
        rw [htrue] at hcurFalse
        exact Bool.noConfusion hcurFalse
      · intro _
        right
        refine ⟨?_, rfl, rfl, rfl, rfl⟩
        intro o hlt
        rw [hPA]
        rw [hasPendingAt_db1_of_ne hall hlt.ne']
        exact hAbove o hlt

/-- C2 witness: in the two-order store `dbC2` ann's approval advances the
request from order 1 to order 2, and the state-machine properties hold of
the resulting store. -/
theorem approveStep_state_machine_witness :
    (dbC2.steps.map (fun s => s.id)).Nodup ∧
    findUserById dbC2 "ann" = some annC2 ∧
    findRequestById dbC2 "rq" = some reqC2 ∧
    approveStep dbC2 "rq" "ann" none 10 = Except.ok (dbC2res, resC2) ∧
    resC2.note = none ∧
    (reqC2.current_status = "in_progress" ∧
     ∃ request', findRequestById dbC2res "rq" = some request' ∧
       reqC2.current_step ≤ request'.current_step ∧
       (∀ o, reqC2.current_step ≤ o → o < request'.current_step →
         hasPendingAt dbC2res "rq" o = false) ∧
       (hasPendingAt dbC2res "rq" reqC2.current_step = true →
         request'.current_step = reqC2.current_step ∧
         request'.current_status = reqC2.current_status) ∧
       (hasPendingAt dbC2res "rq" reqC2.current_step = false →
         ((reqC2.current_step < request'.current_step ∧
           hasPendingAt dbC2res "rq" request'.current_step = true ∧
           request'.current_status = reqC2.current_status) ∨
          ((∀ o, reqC2.current_step < o → hasPendingAt dbC2res "rq" o = false) ∧
           request'.current_step = reqC2.current_step ∧
           request'.current_status = "approved" ∧
           request'.is_completed = true ∧
           request'.completed_at = some 10)))) :=
  ⟨by decide, by decide, by decide, by decide, by decide,
   @approveStep_state_machine dbC2 dbC2res "rq" "ann" none 10 resC2 annC2 reqC2
     (by decide) (by decide) (by decide) (by decide) (by decide)⟩

-- ─── C8 ──────────────────────────────────────────────────────────────────────

/-- C8 counterexample: after ann's successful approve advanced the request
from order 1 to order 2, re-approving with the same actor does not return
the existing outcome — the already-approved lookup is pinned to the *new*
`current_step`, so the replay is rejected with 403. -/
theorem approveStep_not_idempotent_after_advance :
    approveStep dbC2 "rq" "ann" none 10 = Except.ok (dbC2res, resC2) ∧
    approveStep dbC2res "rq" "ann" none 10 =
      Except.error ⟨"No pending approval step found for you at the current step", 403⟩ := by
  decide

/-- C8 (amended): re-approval is idempotent only while the request is
still at the order the actor approved: when the actor has no actable
pending step and has an approved step at the *current* order, approveStep
returns the existing outcome without error and without modifying any state. -/
theorem approveStep_idempotent_same_step {db : DB} {rid actorId : String}
    {remarks : Option String} {now : Int} {actor : User} {request : ApprovalRequest}
    (hactor : findUserById db actorId = some actor)
    (hreq : findRequestById db rid = some request)
    (hin : request.current_status = "in_progress")
    (hself : (request.requested_by == actorId &&
      !isAdminCode (roleCodeOf db actor.role_id)) = false)
    (hnoact : approveActable db rid request actor now = [])
    (hdone : ∃ s ∈ stepsOf db rid, s.step_order = request.current_step ∧
      (s.approver_user = some actorId ∨ s.role_id = actor.role_id) ∧
      s.status = "approved") :
    approveStep db rid actorId remarks now =
      Except.ok (db, { approvalRequestId := rid,
                       currentStatus := request.current_status,
                       currentStep := some request.current_step,
                       note := some "Already approved at this step" }) := by
  unfold approveStep
  rw [hactor, hreq]
  dsimp only
  rw [if_neg (by simp [hin])]
  rw [if_neg (by rw [hself]; decide)]
  rw [if_pos (by
    rw [show ((stepsOf db rid).filter (actableForApprove db request actor now)) =
      ([] : List ApprovalStep) from hnoact]
    rfl)]
  obtain ⟨s, hsmem, h1, h2, h3⟩ := hdone
  have hfind : ((stepsOf db rid).find? (fun s =>
      s.step_order == request.current_step &&
      (s.approver_user == some actorId || s.role_id == actor.role_id) &&
      s.status == "approved")).isSome = true := by
    rw [List.find?_isSome]
    refine ⟨s, hsmem, ?_⟩
    simp only [Bool.and_eq_true, Bool.or_eq_true, beq_iff_eq]
    exact ⟨⟨h1, h2⟩, h3⟩
  cases hfd : (stepsOf db rid).find? (fun s =>
      s.step_order == request.current_step &&
      (s.approver_user == some actorId || s.role_id == actor.role_id) &&
      s.status == "approved") with
  | none =>
    rw [hfd] at hfind
    exact Bool.noConfusion hfind
  | some w =>
    rfl

/-- C8 witness: in `dbC8` (ann already approved at the still-current order
1, bev's parallel step pending) re-approving with ann replays the existing
outcome with the store unchanged. -/
theorem approveStep_idempotent_same_step_witness :
    findUserById dbC8 "ann" = some annC2 ∧
    findRequestById dbC8 "rq8" = some reqC8 ∧
    reqC8.current_status = "in_progress" ∧
    (reqC8.requested_by == "ann" && !isAdminCode (roleCodeOf dbC8 annC2.role_id)) = false ∧
    approveActable dbC8 "rq8" reqC8 annC2 20 = [] ∧
    (∃ s ∈ stepsOf dbC8 "rq8", s.step_order = reqC8.current_step ∧
      (s.approver_user = some "ann" ∨ s.role_id = annC2.role_id) ∧
      s.status = "approved") ∧
    approveStep dbC8 "rq8" "ann" none 20 =
      Except.ok (dbC8, { approvalRequestId := "rq8",
                         currentStatus := reqC8.current_status,
                         currentStep := some reqC8.current_step,
                         note := some "Already approved at this step" }) :=
  ⟨by decide, by decide, by decide, by decide, by decide, by decide,
   @approveStep_idempotent_same_step dbC8 "rq8" "ann" none 20 annC2 reqC8
     (by decide) (by decide) (by decide) (by decide) (by decide) (by decide)⟩

-- ─── C5 ──────────────────────────────────────────────────────────────────────

/-- `escalateOne` either maps the step's row (when the write condition
holds) or leaves the store alone. -/
theorem escalateOne_eq (db : DB) (now : Int) (d : DB) (s : ApprovalStep) :
    escalateOne db now d s =
      (if escalateWrites db now s then
        { d with steps := d.steps.map (fun t =>
            if t.id == s.id then
              { t with escalated := true,
                       escalated_to := resolveEscalationTarget db s.approver_user }
            else t) }
       else d,
       escalateWrites db now s) := by
  unfold escalateOne escalateWrites
  cases hreq : db.requests.find? (fun r => r.id == s.approval_request_id) with
  | none => simp [hreq]
  | some request =>
    cases hm : escalationSlaMatrix db request.doc_type s.step_order with
    | none => simp [hreq, hm]
    | some matrix =>
      cases hh : matrix.escalation_hours with
      | none => simp [hreq, hm, hh]
      | some h =>
        by_cases h0 : (h == 0) = true
        · simp [hreq, hm, hh, h0]
        · have h0' : (h == 0) = false := by simpa using h0
          by_cases hage : now - request.created_at < h * 3600000
          · simp [hreq, hm, hh, h0', hage]
          · simp [hreq, hm, hh, h0', hage]

theorem escalationFold_cons (db : DB) (now : Int) (fails : ApprovalStep → Bool)
    (s0 : ApprovalStep) (rest : List ApprovalStep) (acc : DB × Nat × Nat) :
    escalationFold db now fails (s0 :: rest) acc =
      escalationFold db now fails rest
        (if fails s0 then (acc.1, acc.2.1, acc.2.2 + 1)
         else ((escalateOne db now acc.1 s0).1,
               if (escalateOne db now acc.1 s0).2 then acc.2.1 + 1 else acc.2.1,
               acc.2.2)) := rfl

/-- A step row survives the scan unchanged when every processed step
carrying its id either fails or does not meet the write condition. -/
theorem escalationFold_mem_preserved (db : DB) (now : Int) (fails : ApprovalStep → Bool) :
    ∀ l acc (s : ApprovalStep), s ∈ acc.1.steps →
      (∀ s0 ∈ l, s0.id = s.id → fails s0 = true ∨ escalateWrites db now s0 = false) →
      s ∈ (escalationFold db now fails l acc).1.steps := by
  intro l
  induction l with
  | nil => intro acc s hs _; exact hs
  | cons s0 rest ih =>
    intro acc s hs hcond
    rw [escalationFold_cons]
    apply ih
    · by_cases hf : fails s0 = true
      · simpa [hf] using hs
      · have hf' : fails s0 = false := by simpa using hf
        rw [escalateOne_eq]
        by_cases hw : escalateWrites db now s0 = true
        · by_cases hid : s0.id = s.id
          · rcases hcond s0 (List.mem_cons_self s0 rest) hid with hfail | hnw
            · rw [hf'] at hfail; cases hfail
            · rw [hnw] at hw; cases hw
          · simp only [hf', hw, Bool.false_eq_true, if_false, if_true]
            refine List.mem_map.mpr ⟨s, hs, ?_⟩
            rw [if_neg]
            intro hbeq
            exact hid (beq_iff_eq.mp hbeq).symm
        · have hw' : escalateWrites db now s0 = false := by simpa using hw
          simpa [hf', hw'] using hs
    · intro s0' hs0' hid
      exact hcond s0' (List.mem_cons_of_mem s0 hs0') hid

/-- A processed step that meets the write condition and does not fail has
its escalated row in the resulting store. -/
theorem escalationFold_writes (db : DB) (now : Int) (fails : ApprovalStep → Bool) :
    ∀ l acc (s : ApprovalStep), s ∈ acc.1.steps → s ∈ l →
      (l.map (fun x => x.id)).Nodup →
      fails s = false → escalateWrites db now s = true →
      { s with escalated := true,
               escalated_to := resolveEscalationTarget db s.approver_user } ∈
        (escalationFold db now fails l acc).1.steps := by
  intro l
  induction l with
  | nil => intro acc s _ hmem _ _ _; exact absurd hmem (List.not_mem_nil s)
  | cons s0 rest ih =>
    intro acc s hs hmem hnodup hf hw
    rw [escalationFold_cons]
    rcases List.mem_cons.mp hmem with rfl | hmem'
    · apply escalationFold_mem_preserved
      · rw [if_neg (by rw [hf]; intro h; cases h)]
        rw [escalateOne_eq]
        simp only [hw, if_true]
        refine List.mem_map.mpr ⟨s, hs, ?_⟩
        rw [if_pos (beq_iff_eq.mpr rfl)]
      · intro s0' hs0' hid
        exfalso
        have hmap : s.id ∈ rest.map (fun x => x.id) := by
          rw [← hid]
          exact List.mem_map_of_mem (fun x => x.id) hs0'
        exact (List.nodup_cons.mp hnodup).1 hmap
    · have hids : s0.id ≠ s.id := by
        intro heq
        have hmap : s.id ∈ rest.map (fun x => x.id) :=
          List.mem_map_of_mem (fun x => x.id) hmem'
        rw [← heq] at hmap
        exact (List.nodup_cons.mp hnodup).1 hmap
      apply ih _ s ?_ hmem' (List.nodup_cons.mp hnodup).2 hf hw
      by_cases hfs0 : fails s0 = true
      · simpa [hfs0] using hs
      · have hf' : fails s0 = false := by simpa using hfs0
        rw [escalateOne_eq]
        by_cases hws0 : escalateWrites db now s0 = true
        · simp only [hf', hws0, Bool.false_eq_true, if_false, if_true]
          refine List.mem_map.mpr ⟨s, hs, ?_⟩
          rw [if_neg]
          intro hbeq
          exact hids (beq_iff_eq.mp hbeq).symm
        · have hw' : escalateWrites db now s0 = false := by simpa using hws0
          simpa [hf', hw'] using hs

theorem escalationFold_steps_length (db : DB) (now : Int) (fails : ApprovalStep → Bool) :
    ∀ l acc, ((escalationFold db now fails l acc).1.steps).length = acc.1.steps.length := by
  intro l
  induction l with
  | nil => intro acc; rfl
  | cons s0 rest ih =>
    intro acc
    rw [escalationFold_cons, ih]
    by_cases hf : fails s0 = true
    · simp [hf]
    · have hf' : fails s0 = false := by simpa using hf
      rw [escalateOne_eq]
      by_cases hw : escalateWrites db now s0 = true
      · simp [hf', hw]
      · have hw' : escalateWrites db now s0 = false := by simpa using hw
        simp [hf', hw']

/-- Characterization of the scan: one run sets `escalated` and
`escalated_to` (the original approver's active manager, else the code's
literal SUPER_ADMIN-code fallback — which resolves nobody on a seeded
store — else none) on exactly the steps that are pending, not yet
escalated, whose parent request is in progress, whose matching matrix row
carries a nonzero SLA (the source's falsy check skips a zero-hours SLA),
and whose request age has reached it; every other step row — already
escalated, under threshold, or without an SLA — survives unchanged, the
step count is preserved, and a storage error on one step leaves the
escalation of every other due step intact. -/
theorem runEscalation_spec (db : DB) (now : Int) (fails : ApprovalStep → Bool)
    (hstepNodup : (db.steps.map (fun s => s.id)).Nodup) :
    (∀ a, resolveEscalationTarget db a =
      match activeManagerOf db a with
      | some m => some m
      | none => superAdminCodeFallback db) ∧
    ((runEscalation db now fails).1.steps).length = db.steps.length ∧
    (∀ s ∈ db.steps,
      (escalationDue db now s = true → fails s = false →
        { s with escalated := true,
                 escalated_to := resolveEscalationTarget db s.approver_user } ∈
          (runEscalation db now fails).1.steps) ∧
      (escalationDue db now s = false ∨ fails s = true →
        s ∈ (runEscalation db now fails).1.steps)) := by
  have hsub : List.Sublist (activePendingSteps db) db.steps :=
    List.Sublist.trans (List.filter_sublist _) (List.filter_sublist _)
  have hsubmem : ∀ x ∈ activePendingSteps db, x ∈ db.steps := fun x hx =>
    List.Sublist.mem hx hsub
  have hnodupAP : ((activePendingSteps db).map (fun x => x.id)).Nodup :=
    List.Nodup.sublist (List.Sublist.map _ hsub) hstepNodup
  refine ⟨?_, ?_, ?_⟩
  · intro a
    unfold resolveEscalationTarget activeManagerOf superAdminCodeFallback
    rfl
  · exact escalationFold_steps_length db now fails (activePendingSteps db) (db, 0, 0)
  · intro s hmem
    constructor
    · intro hdue hf
      have hdue' := hdue
      unfold escalationDue at hdue'
      simp only [Bool.and_eq_true] at hdue'
      have hAP : s ∈ activePendingSteps db := by
        unfold activePendingSteps
        rw [List.mem_filter, List.mem_filter]
        refine ⟨⟨hmem, ?_⟩, ?_⟩
        · rw [Bool.and_eq_true]
          exact ⟨hdue'.1.1.1, hdue'.1.1.2⟩
        · exact hdue'.1.2
      exact escalationFold_writes db now fails (activePendingSteps db) (db, 0, 0)
        s hmem hAP hnodupAP hf hdue'.2
    · intro hcase
      apply escalationFold_mem_preserved db now fails (activePendingSteps db)
        (db, 0, 0) s hmem
      intro s0 hs0 hid
      have hs0db : s0 ∈ db.steps := hsubmem s0 hs0
      have heq : s0 = s :=
        List.inj_on_of_nodup_map hstepNodup hs0db hmem hid
      subst heq
      rcases hcase with hdueF | hfT
      · right
        simp only [activePendingSteps, List.mem_filter] at hs0
        cases hb : escalateWrites db now s0 with
        | false => rfl
        | true =>
          exfalso
          unfold escalationDue at hdueF
          simp [hs0, hb] at hdueF
      · exact Or.inl hfT

/-- A zero-hours SLA is a configured SLA that any elapsed time reaches,
yet the scan escalates nothing because the source's
`!matrix?.escalation_hours` treats 0 as absent. -/
theorem runEscalation_zero_sla_skipped :
    (escalationSlaMatrix dbC5z "PR" 1).map (fun m => m.escalation_hours) =
      some (some 0) ∧
    stAC5.status = "pending" ∧ stAC5.escalated = false ∧
    (runEscalation dbC5z 999999999 (fun _ => false)).1 = dbC5z ∧
    (runEscalation dbC5z 999999999 (fun _ => false)).2.1 = 0 := by
  decide

/-- C5: the escalation scan diverges from the claim at two points.  (i)
Top-administrator fallback: `resolveEscalationTarget` queries the literal
role code "SUPER_ADMIN" while the repository seeds its administrator roles
as "super_admin"/"erp_admin", so on the seeded store `dbC5sa` the one
over-SLA pending step (whose approver carl has no manager) is flagged with
`escalated_to = none` even though sue, an active holder of the seeded
top-administrator role, exists.  (ii) A configured zero-hours SLA is falsy
to the source's `!matrix?.escalation_hours` test, so the due pending step
of `dbC5z` is never escalated although the claim's "SLA configured and
elapsed hours reach it" condition holds. -/
theorem runEscalation_divergence :
    ((dbC5sa.roles.find? (fun r => r.code == "super_admin" && r.is_active)).isSome
       = true ∧
     (dbC5sa.users.find? (fun u =>
        u.role_id == some "r_sup" && u.is_active && !u.deleted)).isSome = true ∧
     escalationDue dbC5sa 3600000 stSC5 = true ∧
     (runEscalation dbC5sa 3600000 (fun _ => false)).1.steps =
       [{ stSC5 with escalated := true, escalated_to := none }]) ∧
    ((escalationSlaMatrix dbC5z "PR" 1).map (fun m => m.escalation_hours) =
       some (some 0) ∧
     stAC5.status = "pending" ∧ stAC5.escalated = false ∧
     escalationDue dbC5z 999999999 stAC5 = false ∧
     (runEscalation dbC5z 999999999 (fun _ => false)).1 = dbC5z) := by
  decide

/-- The characterization at a concrete store: in `dbC5` at 24 hours, with
a storage failure injected on step stA, step stB is still escalated (to no
one: carol has no manager and no SUPER_ADMIN-coded role exists), and the
failing step stA survives unchanged. -/
theorem runEscalation_spec_witness :
    stBC5esc ∈ (runEscalation dbC5 86400000 (fun s => s.id == "stA")).1.steps ∧
    stAC5 ∈ (runEscalation dbC5 86400000 (fun s => s.id == "stA")).1.steps :=
  ⟨((runEscalation_spec dbC5 86400000 (fun s => s.id == "stA")
      (by decide)).2.2 stBC5 (by decide)).1 (by decide) (by decide),
   ((runEscalation_spec dbC5 86400000 (fun s => s.id == "stA")
      (by decide)).2.2 stAC5 (by decide)).2 (Or.inr (by decide))⟩

-- ─── C4 ──────────────────────────────────────────────────────────────────────

/-- The reject actable filter, spelled out. -/
theorem actableForReject_iff (db : DB) (request : ApprovalRequest) (actor : User)
    (s : ApprovalStep) :
    actableForReject db request actor s = true ↔
      (s.step_order = request.current_step ∧ s.status = "pending" ∧
       (isAdminCode (roleCodeOf db actor.role_id) = true ∨
        s.approver_user = some actor.id ∨ s.role_id = actor.role_id)) := by
  unfold actableForReject
  simp [Bool.and_eq_true, Bool.or_eq_true, beq_iff_eq, and_assoc, or_assoc]

/-- C4 counterexample: dave, an active delegate standing in for the
assigned approver amy, is eligible to approve but `rejectStep` denies him
with 403 — the reject filter has no delegation case, so reject eligibility
is not the same rule as approve. -/
theorem rejectStep_delegate_not_eligible :
    (approveStep dbC4 "R" "dave" none 50).isOk = true ∧
    rejectStep dbC4 "R" "dave" none 50 =
      .error ⟨"No pending approval step found for you at the current step", 403⟩ := by
  decide

/-- C4 (amended): `rejectStep` succeeds only while the request is
in_progress, and exactly for actors that are the step's direct approver,
hold the step's required role, or are administrators — an active delegate
of the approver is not eligible to reject, unlike approve.  On success the
acted step becomes rejected (stamped with the actor), the parent request
becomes rejected and completed, every other still-pending step at every
order becomes skipped, and no pending step remains (nothing left to skip
on a re-run). -/
theorem rejectStep_spec (db : DB) (rid actorId : String) (remarks : Option String)
    (now : Int) (actor : User) (request : ApprovalRequest)
    (hactor : findUserById db actorId = some actor)
    (hreq : findRequestById db rid = some request) :
    (∀ db' r2, rejectStep db rid actorId remarks now = .ok (db', r2) →
      request.current_status = "in_progress") ∧
    (request.current_status = "in_progress" →
      ((∃ s ∈ stepsOf db rid, s.step_order = request.current_step ∧
          s.status = "pending" ∧
          (isAdminCode (roleCodeOf db actor.role_id) = true ∨
           s.approver_user = some actor.id ∨ s.role_id = actor.role_id)) ↔
        ∃ db' r2, rejectStep db rid actorId remarks now = .ok (db', r2))) ∧
    (∀ db' r2, rejectStep db rid actorId remarks now = .ok (db', r2) →
      (∃ request', findRequestById db' rid = some request' ∧
        request'.current_status = "rejected" ∧ request'.is_completed = true ∧
        request'.completed_at = some now) ∧
      (∃ acted ∈ stepsOf db rid, acted.step_order = request.current_step ∧
        acted.status = "pending" ∧
        (∃ acted' ∈ stepsOf db' rid, acted'.id = acted.id ∧
          acted'.status = "rejected" ∧ acted'.approver_user = some actorId ∧
          acted'.action = some "reject") ∧
        (∀ s ∈ stepsOf db rid, s.status = "pending" → s.id ≠ acted.id →
          ∃ s' ∈ stepsOf db' rid, s'.id = s.id ∧ s'.status = "skipped")) ∧
      (∀ s' ∈ stepsOf db' rid, s'.status ≠ "pending")) := by
  have hreqF : db.requests.find? (fun r => r.id == rid) = some request := hreq
  have hridreq : request.id = rid := by
    have h := List.find?_some hreqF
    simpa using h
  refine ⟨?_, ?_, ?_⟩
  · intro db' r2 hok
    by_contra hst
    unfold rejectStep at hok
    rw [hactor] at hok
    dsimp only at hok
    rw [hreq] at hok
    dsimp only at hok
    rw [if_pos (bne_iff_ne.mpr hst)] at hok
    exact Except.noConfusion hok
  · intro hin
    constructor
    · rintro ⟨s, hsmem, hord, hstat, helig⟩
      have hfs : ((stepsOf db rid).find? (actableForReject db request actor)).isSome = true := by
        rw [List.find?_isSome]
        exact ⟨s, hsmem,
          (actableForReject_iff db request actor s).mpr ⟨hord, hstat, helig⟩⟩
      obtain ⟨st, hst⟩ := Option.isSome_iff_exists.mp hfs
      refine ⟨{ db with
          requests := db.requests.map (fun r =>
            if r.id == rid then
              { r with
                current_status := "rejected", is_completed := true,
                completed_at := some now }
            else r),
          steps := (db.steps.map (fun s =>
            if s.id == st.id then
              { s with
                status := "rejected", action := some "reject",
                remarks := remarks, approved_at := some now,
                approver_user := some actorId }
            else s)).map (fun s =>
              if s.approval_request_id == rid && s.status == "pending" then
                { s with status := "skipped" }
              else s) },
        ⟨rid, "rejected"⟩, ?_⟩
      unfold rejectStep
      rw [hactor]
      dsimp only
      rw [hreq]
      dsimp only
      rw [if_neg (by simp [hin])]
      rw [hst]
    · rintro ⟨db', r2, hok⟩
      unfold rejectStep at hok
      rw [hactor] at hok
      dsimp only at hok
      rw [hreq] at hok
      dsimp only at hok
      rw [if_neg (by simp [hin])] at hok
      cases hfind : (stepsOf db rid).find? (actableForReject db request actor) with
      | none =>
        rw [hfind] at hok
        exact Except.noConfusion hok
      | some st =>
        have hprop := (actableForReject_iff db request actor st).mp
          (List.find?_some hfind)
        exact ⟨st, List.mem_of_find?_eq_some hfind, hprop⟩
  · intro db' r2 hok
    have hin : request.current_status = "in_progress" := by
      by_contra hst
      unfold rejectStep at hok
      rw [hactor] at hok
      dsimp only at hok
      rw [hreq] at hok
      dsimp only at hok
      rw [if_pos (bne_iff_ne.mpr hst)] at hok
      exact Except.noConfusion hok
    unfold rejectStep at hok
    rw [hactor, hreq] at hok
    dsimp only at hok
    rw [if_neg (by simp [hin])] at hok
    cases hfind : (stepsOf db rid).find? (actableForReject db request actor) with
    | none =>
      rw [hfind] at hok
      exact Except.noConfusion hok
    | some st =>
      rw [hfind] at hok
      simp only [Except.ok.injEq, Prod.mk.injEq] at hok
      obtain ⟨hdb, hres⟩ := hok
      subst hdb
      have hstprop := (actableForReject_iff db request actor st).mp
        (List.find?_some hfind)
      have hstmem := List.mem_of_find?_eq_some hfind
      have hstdb : st ∈ db.steps := (mem_stepsOf.mp hstmem).1
      have hstrid : st.approval_request_id = rid := (mem_stepsOf.mp hstmem).2
      refine ⟨?_, ?_, ?_⟩
      · refine ⟨{ request with
            current_status := "rejected", is_completed := true,
            completed_at := some now }, ?_, rfl, rfl, rfl⟩
        unfold findRequestById
        rw [show ({ db with steps := db.steps.map (fun s =>
              if s.id == st.id then
                { s with status := "rejected", action := some "reject",
                         remarks := remarks, approved_at := some now,
                         approver_user := some actorId }
              else s) } : DB).requests.map (fun r =>
              if r.id == rid then
                { r with current_status := "rejected", is_completed := true,
                         completed_at := some now } else r) =
            db.requests.map (fun r =>
              if r.id == rid then
                { r with current_status := "rejected", is_completed := true,
                         completed_at := some now } else r) from rfl]
        rw [find?_req_map db.requests rid _ (by
          intro r
          split
          · rfl
          · rfl), hreqF]
        rw [Option.map_some']
        rw [if_pos (beq_iff_eq.mpr hridreq)]
      · refine ⟨st, hstmem, hstprop.1, hstprop.2.1, ?_, ?_⟩
        · refine ⟨{ st with
              status := "rejected", action := some "reject",
              remarks := remarks, approved_at := some now,
              approver_user := some actorId }, ?_, rfl, rfl, rfl, rfl⟩
          rw [mem_stepsOf]
          refine ⟨?_, hstrid⟩
          refine List.mem_map.mpr ⟨?_, ?_, ?_⟩
          · exact { st with
                status := "rejected", action := some "reject",
                remarks := remarks, approved_at := some now,
                approver_user := some actorId }
          · exact List.mem_map.mpr ⟨st, hstdb, by rw [if_pos (beq_iff_eq.mpr rfl)]⟩
          · rw [if_neg]
            intro hc
            rw [Bool.and_eq_true] at hc
            have : ("rejected" : String) = "pending" := beq_iff_eq.mp hc.2
            exact absurd this (by decide)
        · intro s hs hspend hsid
          have hsdb : s ∈ db.steps := (mem_stepsOf.mp hs).1
          have hsrid : s.approval_request_id = rid := (mem_stepsOf.mp hs).2
          refine ⟨{ s with status := "skipped" }, ?_, rfl, rfl⟩
          rw [mem_stepsOf]
          refine ⟨?_, hsrid⟩
          refine List.mem_map.mpr ⟨s, ?_, ?_⟩
          · exact List.mem_map.mpr ⟨s, hsdb, by
              rw [if_neg]
              intro hc
              exact hsid (beq_iff_eq.mp hc)⟩
          · rw [if_pos]
            rw [Bool.and_eq_true]
            exact ⟨beq_iff_eq.mpr hsrid, beq_iff_eq.mpr hspend⟩
      · intro s' hs'
        obtain ⟨hs'mem, hs'rid⟩ := mem_stepsOf.mp hs'
        obtain ⟨t, ht, rfl⟩ := List.mem_map.mp hs'mem
        by_cases hc : (t.approval_request_id == rid && t.status == "pending") = true
        · rw [if_pos hc]
          intro h
          exact absurd h (show ("skipped" : String) = "pending" → False by decide)
        · rw [if_neg hc]
          rw [if_neg hc] at hs'rid
          intro hpend
          exact hc (by
            rw [Bool.and_eq_true]
            exact ⟨beq_iff_eq.mpr hs'rid, beq_iff_eq.mpr hpend⟩)

/-- C4 witness: amy, the direct approver, rejects her pending step in
`dbC4` — the eligibility direction and the success branch of
`rejectStep_spec` at a concrete store. -/
theorem rejectStep_spec_witness :
    ∃ db' r2, rejectStep dbC4 "R" "amy" none 50 = .ok (db', r2) :=
  ((rejectStep_spec dbC4 "R" "amy" none 50 amyC4 reqC4
      (by decide) (by decide)).2.1 (by decide)).mp (by decide)

-- ─── C3 ──────────────────────────────────────────────────────────────────────

/-- C3 counterexample: the stored record was created on route "/a"; a call
with the same key and body but route "/b" is replayed from the cache even
though the SHA-256 fingerprint of the pair (route, body) differs from the
stored fingerprint — so replay is not governed by the pair fingerprint, and
a differing pair fingerprint does not conflict. -/
theorem idempotencyGuard_ignores_route :
    idempotencyGuard [recC3] (some "k") none "/b" "x" 0 = .replay "cached" ∧
    hashPairSpec "/b" "x" ≠ recC3.request_hash := by decide

/-- C3 (amended): for a call with an idempotency key and a non-expired
record for it, the guard replays the cached response exactly when the
SHA-256 fingerprint of the body equals the stored fingerprint and rejects
with 409 when it differs (the route is stored but not compared); an absent
key is a no-op passthrough that just runs the controller; and a replay
performs no second logical write (the application state and the store are
returned unchanged, the handler is never invoked). -/
theorem idempotencyGuard_spec (store : List IdempotencyKeyRecord) (st : Nat)
    (handler : Nat → Nat × String × Nat) (k : String) (userId : Option String)
    (route body : String) (now : Int) (rec : IdempotencyKeyRecord)
    (hfind : store.find? (fun r => r.key == k) = some rec)
    (hnotexp : ¬(rec.expires_at < now)) :
    (idempotencyGuard store none userId route body now = .pass store ∧
     handleWithIdempotency store st handler none userId route body now =
       ((handler st).1, store, (handler st).2.2, (handler st).2.1)) ∧
    (rec.request_hash = hashBody body →
      idempotencyGuard store (some k) userId route body now =
        .replay rec.response_body ∧
      handleWithIdempotency store st handler (some k) userId route body now =
        (st, store, 200, rec.response_body)) ∧
    (rec.request_hash ≠ hashBody body →
      idempotencyGuard store (some k) userId route body now = .conflict ∧
      handleWithIdempotency store st handler (some k) userId route body now =
        (st, store, 409,
         "Idempotency conflict: this key was already used with a different request payload")) := by
  refine ⟨⟨rfl, rfl⟩, ?_, ?_⟩
  · intro hhash
    have hguard : idempotencyGuard store (some k) userId route body now =
        .replay rec.response_body := by
      unfold idempotencyGuard
      dsimp only
      rw [hfind]
      dsimp only
      rw [if_neg hnotexp, if_pos (beq_iff_eq.mpr hhash)]
    refine ⟨hguard, ?_⟩
    unfold handleWithIdempotency
    rw [hguard]
  · intro hhash
    have hguard : idempotencyGuard store (some k) userId route body now =
        .conflict := by
      unfold idempotencyGuard
      dsimp only
      rw [hfind]
      dsimp only
      rw [if_neg hnotexp, if_neg ?_]
      intro hbeq
      exact hhash (beq_iff_eq.mp hbeq)
    refine ⟨hguard, ?_⟩
    unfold handleWithIdempotency
    rw [hguard]

/-- C3 witness: `idempotencyGuard_spec` at a concrete store, in both the
replay and the conflict branch. -/
theorem idempotencyGuard_spec_witness :
    (idempotencyGuard [recC3] (some "k") none "/a" "x" 0 = .replay "cached" ∧
     handleWithIdempotency [recC3] 7 (fun n => (n + 1, "resp", 200))
       (some "k") none "/a" "x" 0 = (7, [recC3], 200, "cached")) ∧
    (idempotencyGuard [recC3b] (some "k") none "/a" "x" 0 = .conflict) :=
  ⟨((idempotencyGuard_spec [recC3] 7 (fun n => (n + 1, "resp", 200)) "k" none
      "/a" "x" 0 recC3 (by decide) (by decide)).2.1 rfl),
   ((idempotencyGuard_spec [recC3b] 7 (fun n => (n + 1, "resp", 200)) "k" none
      "/a" "x" 0 recC3b (by decide) (by decide)).2.2 (by decide)).1⟩

-- ─── C10 ─────────────────────────────────────────────────────────────────────

/-- C10: past the self-delegation and existence guards, `createDelegation`
rejects with a conflict whenever the target user already has an active
delegation back to the grantor, and whenever the grantor already has an
active delegation whose window overlaps the requested period; and every
successful create preserves both invariants: no two active delegations
from the same user overlap, and no 2-cycle of delegations is active
simultaneously at the present or any later time. -/
theorem createDelegation_spec (db : DB) (fromUser toUser : String)
    (startDate endDate now : Int) (newId : String)
    (hne : fromUser ≠ toUser)
    (hfrom : (db.users.find? (fun u => u.id == fromUser && !u.deleted && u.is_active)).isSome = true)
    (hto : (db.users.find? (fun u => u.id == toUser && !u.deleted && u.is_active)).isSome = true) :
    ((∃ d0 ∈ db.delegations, d0.from_user = toUser ∧ d0.to_user = fromUser ∧
        delegationActiveAt d0 now) →
      ∃ e, createDelegation db fromUser toUser startDate endDate now newId =
        .error e ∧ e.statusCode = 409) ∧
    ((∃ d0 ∈ db.delegations, d0.from_user = fromUser ∧ d0.is_active = true ∧
        d0.start_date ≤ endDate ∧ startDate ≤ d0.end_date) →
      ∃ e, createDelegation db fromUser toUser startDate endDate now newId =
        .error e ∧ e.statusCode = 409) ∧
    (∀ db' d, createDelegation db fromUser toUser startDate endDate now newId =
        .ok (db', d) →
      (overlapFree db.delegations → overlapFree db'.delegations) ∧
      ((∀ t, now ≤ t → noTwoCycleAt db.delegations t) →
        ∀ t, now ≤ t → noTwoCycleAt db'.delegations t)) := by
  have hne' : (fromUser == toUser) = false := beq_eq_false_iff_ne.mpr hne
  obtain ⟨uf, huf⟩ := Option.isSome_iff_exists.mp hfrom
  obtain ⟨ut, hut⟩ := Option.isSome_iff_exists.mp hto
  refine ⟨?_, ?_, ?_⟩
  · rintro ⟨d0, hd0, hf0, ht0, ha0, hs0, he0⟩
    have hcirc : db.delegations.any (fun d =>
        d.from_user == toUser && d.to_user == fromUser && d.is_active &&
        decide (now ≤ d.end_date)) = true := by
      rw [List.any_eq_true]
      exact ⟨d0, hd0, by simp [hf0, ht0, ha0, he0]⟩
    refine ⟨⟨"Circular delegation detected — the target user already delegates back to this user", 409⟩, ?_, rfl⟩
    simp [createDelegation, hne', huf, hut, hcirc]
  · rintro ⟨d0, hd0, hf0, ha0, hs0, he0⟩
    by_cases hcirc : db.delegations.any (fun d =>
        d.from_user == toUser && d.to_user == fromUser && d.is_active &&
        decide (now ≤ d.end_date)) = true
    · refine ⟨⟨"Circular delegation detected — the target user already delegates back to this user", 409⟩, ?_, rfl⟩
      simp [createDelegation, hne', huf, hut, hcirc]
    · have hcirc' : db.delegations.any (fun d =>
          d.from_user == toUser && d.to_user == fromUser && d.is_active &&
          decide (now ≤ d.end_date)) = false := by
        simpa using hcirc
      have hov : db.delegations.any (fun d =>
          d.from_user == fromUser && d.is_active &&
          decide (d.start_date ≤ endDate) && decide (startDate ≤ d.end_date)) = true := by
        rw [List.any_eq_true]
        exact ⟨d0, hd0, by simp [hf0, ha0, hs0, he0]⟩
      refine ⟨⟨"An active delegation for this user already overlaps with the requested period", 409⟩, ?_, rfl⟩
      simp [createDelegation, hne', huf, hut, hcirc', hov]
  · intro db' d hok
    simp only [createDelegation, hne', huf, hut, Bool.false_eq_true, if_false] at hok
    split at hok
    · exact absurd hok (by simp)
    · split at hok
      · exact absurd hok (by simp)
      · rename_i hcirc hov
        rw [Bool.not_eq_true, List.any_eq_false] at hcirc
        rw [Bool.not_eq_true, List.any_eq_false] at hov
        have hok' := Except.ok.inj hok
        have hdb : ({ db with delegations := db.delegations ++
            [{ id := newId, from_user := fromUser, to_user := toUser,
               start_date := startDate, end_date := endDate, is_active := true }] } : DB) = db' :=
          congrArg Prod.fst hok'
        have hdb' : db'.delegations = db.delegations ++
            [{ id := newId, from_user := fromUser, to_user := toUser,
               start_date := startDate, end_date := endDate, is_active := true }] := by
          rw [← hdb]
        constructor
        · intro hOF d1 hd1 d2 hd2 hne12 hsame hact1 hact2 hovl
          rw [hdb'] at hd1 hd2
          rcases List.mem_append.mp hd1 with h1 | h1 <;>
            rcases List.mem_append.mp hd2 with h2 | h2
          · exact hOF d1 h1 d2 h2 hne12 hsame hact1 hact2 hovl
          · have h2' := List.mem_singleton.mp h2
            refine hov d1 h1 ?_
            subst h2'
            simp only [Bool.and_eq_true, beq_iff_eq, decide_eq_true_eq]
            exact ⟨⟨⟨hsame, hact1⟩, hovl.1⟩, hovl.2⟩
          · have h1' := List.mem_singleton.mp h1
            refine hov d2 h2 ?_
            subst h1'
            simp only [Bool.and_eq_true, beq_iff_eq, decide_eq_true_eq]
            exact ⟨⟨⟨hsame.symm, hact2⟩, hovl.2⟩, hovl.1⟩
          · exact hne12 ((List.mem_singleton.mp h1).trans (List.mem_singleton.mp h2).symm)
        · intro hCF t ht ⟨d1, hd1, d2, hd2, hf12, ht12, hact1, hact2⟩
          rw [hdb'] at hd1 hd2
          rcases List.mem_append.mp hd1 with h1 | h1 <;>
            rcases List.mem_append.mp hd2 with h2 | h2
          · exact hCF t ht ⟨d1, h1, d2, h2, hf12, ht12, hact1, hact2⟩
          · have h2' := List.mem_singleton.mp h2
            subst h2'
            refine hcirc d1 h1 ?_
            simp only [Bool.and_eq_true, beq_iff_eq, decide_eq_true_eq]
            exact ⟨⟨⟨hf12, ht12⟩, hact1.1⟩, le_trans ht hact1.2.2⟩
          · have h1' := List.mem_singleton.mp h1
            subst h1'
            refine hcirc d2 h2 ?_
            simp only [Bool.and_eq_true, beq_iff_eq, decide_eq_true_eq]
            exact ⟨⟨⟨ht12.symm, hf12.symm⟩, hact2.1⟩, le_trans ht hact2.2.2⟩
          · have h1' := List.mem_singleton.mp h1
            have h2' := List.mem_singleton.mp h2
            subst h1'
            subst h2'
            exact hne hf12

/-- C10 witness: the conflict branch fires in `dbC10b` (gina already
delegates back to frank), and after the successful create in `dbC10` both
invariants hold of the new store. -/
theorem createDelegation_spec_witness :
    (∃ e, createDelegation dbC10b "frank" "gina" 10 20 5 "n1" = .error e ∧
       e.statusCode = 409) ∧
    overlapFree dbC10'.delegations ∧ noTwoCycleAt dbC10'.delegations 15 :=
  ⟨(createDelegation_spec dbC10b "frank" "gina" 10 20 5 "n1" (by decide)
      (by decide) (by decide)).1 (by decide),
   ((createDelegation_spec dbC10 "frank" "gina" 10 20 5 "n1" (by decide)
      (by decide) (by decide)).2.2 dbC10' dNewC10 (by decide)).1 (by decide),
   ((createDelegation_spec dbC10 "frank" "gina" 10 20 5 "n1" (by decide)
      (by decide) (by decide)).2.2 dbC10' dNewC10 (by decide)).2
     (by
       intro t _ h
       rcases h with ⟨d1, hd1, _⟩
       exact absurd hd1 (List.not_mem_nil d1))
     15 (by decide)⟩

-- ─── C9 ──────────────────────────────────────────────────────────────────────

/-- C9 (code bug): the claim grants cancellation to top-level
administrators, whose seeded role code is "super_admin" (erp_admin being
the other one), but `cancelApproval` compares the actor's role code against
the literal "SUPER_ADMIN"; a super_admin actor who is not the requester is
denied with 403 on an in-progress request. -/
theorem cancelApproval_superAdmin_denied :
    roleCodeOf dbC9 (some "r_super") = some "super_admin" ∧
    (findUserById dbC9 "sam").isSome = true ∧
    (findRequestById dbC9 "req1").map (fun r => r.current_status) =
      some "in_progress" ∧
    cancelApproval dbC9 "req1" "sam" 50 =
      .error ⟨"Only the requester or an admin can cancel an approval", 403⟩ := by
  decide

end Erp
